import Mathlib

/-! httpcaller: request building and response validation.

A shallow embedding of `getcaller.go`, `postcaller.go` and `httpcaller.go`.

Conventions of the embedding.

* A Go `string` is a Lean `String`. `strings.Replace` searches bytes; on valid
  UTF-8 text a byte-level match of a valid UTF-8 pattern starts and ends on
  code-point boundaries, so searching code points finds the same occurrences.
* A Go `map[string]V` is a `GoMap V`: the list of its entries, with pairwise
  distinct keys. For the maps a caller passes in (`defaultHeaders`,
  `baseSuccessResponse`, `Header`, `PathParam`) the order of the list is the
  order in which `range` visits the entries during the call; the Go runtime
  may pick any order, so a statement that holds "whatever the order" is
  stated for every permutation of the entries. A nil map is `none`.
* The collaborators the package calls but does not define (`json.Marshal`,
  `json.Unmarshal`, `http.NewRequestWithContext`, `http.Header.Set`,
  `http.Client.Do`, `io.ReadAll`, `fmt.Sprintf("%v", _)`) are fields of `Env`
  or of the caller; every theorem holds for all of them.
* `Get` and `Post` return the pair `(res, err)` of the Go functions together
  with the list of collaborator calls they made, in order.
-/

namespace HttpCaller

/-! ## Go maps -/

/-- The entries of a Go map with string keys, keys pairwise distinct. -/
structure GoMap (V : Type) where
  entries : List (String × V)
  nodup : (entries.map Prod.fst).Nodup
  deriving DecidableEq

/-- The assignment `m[k] = v` on the entry list: overwrite the entry of `k`
when there is one, add a new entry otherwise. -/
def putEntry {V : Type} (k : String) (v : V) : List (String × V) → List (String × V)
  | [] => [(k, v)]
  | (k', v') :: rest =>
    if k' = k then (k, v) :: rest else (k', v') :: putEntry k v rest

theorem mem_keys_putEntry {V : Type} (k : String) (v : V) (l : List (String × V))
    (a : String) :
    a ∈ (putEntry k v l).map Prod.fst ↔ a = k ∨ a ∈ l.map Prod.fst := by
  induction l with
  | nil => simp [putEntry]
  | cons p rest ih =>
    obtain ⟨k', v'⟩ := p
    by_cases h : k' = k
    · subst h
      simp [putEntry]
    · simp only [putEntry, h, if_false, List.map_cons, List.mem_cons, ih]
      tauto

theorem nodup_putEntry {V : Type} (k : String) (v : V) (l : List (String × V))
    (h : (l.map Prod.fst).Nodup) : ((putEntry k v l).map Prod.fst).Nodup := by
  induction l with
  | nil => simp [putEntry]
  | cons p rest ih =>
    obtain ⟨k', v'⟩ := p
    rw [List.map_cons, List.nodup_cons] at h
    by_cases hk : k' = k
    · subst hk
      simpa [putEntry] using h
    · simp only [putEntry, hk, if_false, List.map_cons, List.nodup_cons]
      refine ⟨?_, ih h.2⟩
      rw [mem_keys_putEntry]
      rintro (h1 | h1)
      · exact hk h1
      · exact h.1 h1

namespace GoMap

/-- The map `make(map[string]V)`. -/
def empty {V : Type} : GoMap V := ⟨[], List.nodup_nil⟩

/-- The lookup `v, exists := m[k]`. -/
def get? {V : Type} (m : GoMap V) (k : String) : Option V := m.entries.lookup k

/-- The assignment `m[k] = v`. -/
def set {V : Type} (m : GoMap V) (k : String) (v : V) : GoMap V :=
  ⟨putEntry k v m.entries, nodup_putEntry k v m.entries m.nodup⟩

/-- The builtin `len(m)`. -/
def len {V : Type} (m : GoMap V) : Nat := m.entries.length

/-- The loop `for key, value := range src { dst[key] = value }`. -/
def copyInto {V : Type} (src : List (String × V)) (dst : GoMap V) : GoMap V :=
  src.foldl (fun m kv => m.set kv.1 kv.2) dst

end GoMap

/-! ## Configuration and call options (`httpcaller.go`) -/

/-- The struct `CallerOptions`; a nil map is `none`. -/
structure CallerOptions (V : Type) where
  DefaultHeaders : Option (GoMap String)
  BaseSuccessResponse : Option (GoMap V)

/-- The struct `CallOption`; a nil map is `none`. -/
structure CallOption where
  Header : Option (GoMap String)
  PathParam : Option (GoMap String)

/-! ## Header merge (`getcaller.go` 51-67, `postcaller.go` 57-73) -/

/-- The local `headers` of `Get` and of `Post` once both loops have run: a
fresh map receives the default headers, then the entries of
`optional[0].Header` when an option is passed and its `Header` is not nil. -/
def mergeHeaders (defaultHeaders : GoMap String) (optional : List CallOption) :
    GoMap String :=
  let headers := GoMap.copyInto defaultHeaders.entries GoMap.empty
  match optional with
  | [] => headers
  | opt :: _ =>
    match opt.Header with
    | none => headers
    | some hdr => GoMap.copyInto hdr.entries headers

/-- The override map of a call as the specification reads it: the `Header` of
the first option, empty when no option is passed or its `Header` is nil. -/
def headerOverrides (optional : List CallOption) : GoMap String :=
  match optional with
  | [] => GoMap.empty
  | opt :: _ => opt.Header.getD GoMap.empty

/-! ## Path parameters (`getcaller.go` 57-73, `postcaller.go` 63-79) -/

/-- The scan of `strings.Replace(s, old, new, -1)` for a non-empty `old`,
left to right over the text that is still unread. With `skip = 0` the scan
stands between matches: when `old` starts here it writes `new` and drops the
`len(old)` characters of the match (one now, `skip` more to come), otherwise
it copies one character. Matches therefore never overlap and the leftmost one
is always taken, as `Index(s[start:], old)` does. -/
def replaceScan (old new : List Char) : Nat → List Char → List Char
  | _, [] => []
  | skip + 1, _ :: cs => replaceScan old new skip cs
  | 0, c :: cs =>
    if old.isPrefixOf (c :: cs) then new ++ replaceScan old new (old.length - 1) cs
    else c :: replaceScan old new 0 cs

/-- The call `strings.Replace(s, old, new, -1)`. An empty `old` matches at the
start of the text and after every code point. (The shortcut `old == new`
of the library returns `s`, which is what the scan gives as well.) -/
def strings_Replace (s old new : String) : String :=
  if old.data = [] then ⟨new.data ++ s.data.flatMap (fun c => c :: new.data)⟩
  else ⟨replaceScan old.data new.data 0 s.data⟩

/-- The text `s` with every occurrence of `old` replaced by `new`, as the
specification words it: reading left to right, an occurrence of `old` at the
current position is replaced and reading resumes after it (occurrences do not
overlap), any other character is kept. `fuel` bounds the number of steps. -/
def replaceOccurrences (old new : List Char) : Nat → List Char → List Char
  | 0, s => s
  | _ + 1, [] => []
  | fuel + 1, c :: cs =>
    if old.isPrefixOf (c :: cs) then
      new ++ replaceOccurrences old new fuel ((c :: cs).drop old.length)
    else c :: replaceOccurrences old new fuel cs

/-- The template `T` with every occurrence of the text `old` replaced by `new`
and all other text unchanged, in the words of the specification. -/
def withOccurrencesReplaced (T old new : String) : String :=
  ⟨replaceOccurrences old.data new.data T.data.length T.data⟩

/-- The local `pathParams` of `Get` and of `Post`: a fresh empty map, replaced
by `optional[0].PathParam` when an option is passed and the field is not nil. -/
def pathParamsOf (optional : List CallOption) : GoMap String :=
  let pathParams : GoMap String := GoMap.empty
  match optional with
  | [] => pathParams
  | opt :: _ =>
    match opt.PathParam with
    | none => pathParams
    | some p => p

/-- The loop `for key, value := range pathParams` over the entries in visiting
order: `url = strings.Replace(url, fmt.Sprintf(":%s", key), value, -1)`. -/
def substitute (pathParams : List (String × String)) (url : String) : String :=
  pathParams.foldl (fun url kv => strings_Replace url (":" ++ kv.1) kv.2) url

/-- The local `url` of `Get` and of `Post` when the request is created:
`h.baseURL + "/" + h.endpoint`, then one replacement per path parameter. -/
def resolveURL (baseURL endpoint : String) (optional : List CallOption) : String :=
  let url := baseURL ++ "/" ++ endpoint
  substitute (pathParamsOf optional).entries url

/-- The segments `s1, s2, ..., sn` written as the text `s1/s2/.../sn`. -/
def joinSlash : List String → String
  | [] => ""
  | [s] => s
  | s :: t :: rest => s ++ "/" ++ joinSlash (t :: rest)

/-- A segment after all path parameters are filled in at once: the segment
`:key` of a key of `P` becomes the value of that key, any other segment is
kept. -/
def fillSegment (P : List (String × String)) (s : String) : String :=
  match s.data with
  | ':' :: k =>
    match P.lookup ⟨k⟩ with
    | some v => v
    | none => s
  | _ => s

/-- The path parameters `P` fit the segments `segs` of a URL: no key contains
`/`; a placeholder `:key` that occurs in a segment is that whole segment; and
no value contains a placeholder. -/
def PlaceholdersAreSegments (P : List (String × String)) (segs : List String) : Prop :=
  (∀ kv ∈ P, '/' ∉ kv.1.data) ∧
  (∀ kv ∈ P, ∀ s ∈ segs, s = ":" ++ kv.1 ∨ ¬ (":" ++ kv.1).data <:+: s.data) ∧
  (∀ kv ∈ P, ∀ kv' ∈ P, ¬ (":" ++ kv'.1).data <:+: kv.2.data)

/-! ## Requests, responses and the collaborators -/

/-- A byte slice `[]byte`. -/
abbrev Bytes := String

/-- The part of `http.Request` the package sets: method, URL, header, body
(`none` for the nil body of a GET). A header maps a canonical key to its list
of values. -/
structure Request where
  Method : String
  URL : String
  Header : GoMap (List String)
  Body : Option Bytes
  deriving DecidableEq

/-- The part of `http.Response` the package uses: the body, given by what
`io.ReadAll` returns on it (the bytes, or the error of the read). -/
structure Response where
  Body : Except String Bytes

/-- One call to a collaborator, as recorded in the order of execution. -/
inductive Call where
  | marshal : Call
  | newRequest : String → String → Call
  | transport : Request → Call
  | readAll : Call
  | unmarshal : Call
  | unmarshalMap : Call
  deriving DecidableEq

/-- The library functions the package calls, for a request type `Q`, a
response type `R` and the values `V` of `interface{}`.
`zero` is `var res response`; `nilValue` is the nil `interface{}`;
`sprintV v` is `fmt.Sprintf("%v", v)`; `Marshal` is `json.Marshal`;
`NewRequestWithContext method url` is the error of
`http.NewRequestWithContext` (`none` for nil); `CanonicalMIMEHeaderKey` is
the key normalisation of `http.Header.Set`; `rangeOrder m` is the order in
which `range` visits the local `headers`; `Unmarshal b res` is
`json.Unmarshal(b, &res)` as the new `res` and the error; `UnmarshalMap b` is
`json.Unmarshal(b, &responseMap)` on a fresh map. -/
structure Env (Q R V : Type) where
  zero : R
  nilValue : V
  sprintV : V → String
  Marshal : Q → Except String Bytes
  NewRequestWithContext : String → String → Option String
  CanonicalMIMEHeaderKey : String → String
  rangeOrder : GoMap String → List (String × String)
  Unmarshal : Bytes → R → R × Option String
  UnmarshalMap : Bytes → Except String (GoMap V)

/-- The values `(res, err)` a call returns (`err = none` is the nil error) and
the collaborator calls it made. -/
structure Outcome (R : Type) where
  res : R
  err : Option String
  calls : List Call

/-- The method `Header.Set(key, value)`: the canonical key gets the single
value. -/
def Header_Set {Q R V : Type} (env : Env Q R V) (hdr : GoMap (List String))
    (key value : String) : GoMap (List String) :=
  hdr.set (env.CanonicalMIMEHeaderKey key) [value]

/-- The loop `for key, value := range headers { httpReq.Header.Set(key, value) }`
on the header of the new request. -/
def setHeaders {Q R V : Type} (env : Env Q R V) (headers : GoMap String)
    (hdr : GoMap (List String)) : GoMap (List String) :=
  (env.rangeOrder headers).foldl (fun acc kv => Header_Set env acc kv.1 kv.2) hdr

/-- The struct `GetCaller`; `httpClient` is given by its method `Do`. -/
structure GetCaller (V : Type) where
  httpClient : Request → Except String Response
  baseURL : String
  endpoint : String
  defaultHeaders : GoMap String
  baseSuccessResponse : GoMap V

/-- The struct `PostCaller`; `httpClient` is given by its method `Do`. -/
structure PostCaller (V : Type) where
  httpClient : Request → Except String Response
  baseURL : String
  endpoint : String
  defaultHeaders : GoMap String
  baseSuccessResponse : GoMap V

/-- The constructor `NewGetCaller` (`getcaller.go` 20-46). -/
def NewGetCaller {V : Type} (httpClient : Request → Except String Response)
    (baseURL endpoint : String) (options : List (CallerOptions V)) : GetCaller V :=
  let defaultHeaders : GoMap String := GoMap.empty
  let baseSuccessResponse : GoMap V := GoMap.empty
  match options with
  | [] => ⟨httpClient, baseURL, endpoint, defaultHeaders, baseSuccessResponse⟩
  | opt :: _ =>
    let defaultHeaders :=
      match opt.DefaultHeaders with
      | some d => d
      | none => defaultHeaders
    let baseSuccessResponse :=
      match opt.BaseSuccessResponse with
      | some b => b
      | none => baseSuccessResponse
    ⟨httpClient, baseURL, endpoint, defaultHeaders, baseSuccessResponse⟩

/-- The constructor `NewPostCaller` (`postcaller.go` 21-47). -/
def NewPostCaller {V : Type} (httpClient : Request → Except String Response)
    (baseURL endpoint : String) (options : List (CallerOptions V)) : PostCaller V :=
  let defaultHeaders : GoMap String := GoMap.empty
  let baseSuccessResponse : GoMap V := GoMap.empty
  match options with
  | [] => ⟨httpClient, baseURL, endpoint, defaultHeaders, baseSuccessResponse⟩
  | opt :: _ =>
    let defaultHeaders :=
      match opt.DefaultHeaders with
      | some d => d
      | none => defaultHeaders
    let baseSuccessResponse :=
      match opt.BaseSuccessResponse with
      | some b => b
      | none => baseSuccessResponse
    ⟨httpClient, baseURL, endpoint, defaultHeaders, baseSuccessResponse⟩

/-! ## Response validation (`getcaller.go` 90-113, `postcaller.go` 98-121) -/

/-- The message of the validation error for `key`:
`"unsuccessful response for key %s: expected %v, got %v"`. -/
def unsuccessfulMessage {Q R V : Type} (env : Env Q R V) (key : String)
    (expectedValue actualValue : V) : String :=
  "unsuccessful response for key " ++ key ++ ": expected " ++
    env.sprintV expectedValue ++ ", got " ++ env.sprintV actualValue

/-- The loop `for key, expectedValue := range h.baseSuccessResponse` over the
entries in visiting order: the first entry whose key is absent from
`responseMap`, or present with a different `%v` form, ends the call with the
validation error; `none` when the loop runs to its end. A missing key leaves
`actualValue` at the nil `interface{}`. -/
def checkExpected {Q R V : Type} (env : Env Q R V) (responseMap : GoMap V) :
    List (String × V) → Option String
  | [] => none
  | (key, expectedValue) :: rest =>
    let actualValue := (responseMap.get? key).getD env.nilValue
    let found := (responseMap.get? key).isSome
    if !found || env.sprintV actualValue != env.sprintV expectedValue then
      some (unsuccessfulMessage env key expectedValue actualValue)
    else checkExpected env responseMap rest

/-- The part of `Get` and of `Post` after the body has been read: decode the
bytes into the response type, and when `baseSuccessResponse` is not empty
decode them into a map and check the expected entries. `calls` are the
collaborator calls made before. -/
def decodeAndValidate {Q R V : Type} (env : Env Q R V) (baseSuccessResponse : GoMap V)
    (calls : List Call) (bytesResponse : Bytes) : Outcome R :=
  match env.Unmarshal bytesResponse env.zero with
  | (res, some err) =>
    ⟨res, some ("unmarshal response error: " ++ err), calls ++ [.unmarshal]⟩
  | (res, none) =>
    if baseSuccessResponse.len > 0 then
      match env.UnmarshalMap bytesResponse with
      | .error err =>
        ⟨res, some ("unmarshal response map error: " ++ err),
          calls ++ [.unmarshal, .unmarshalMap]⟩
      | .ok responseMap =>
        ⟨res, checkExpected env responseMap baseSuccessResponse.entries,
          calls ++ [.unmarshal, .unmarshalMap]⟩
    else ⟨res, none, calls ++ [.unmarshal]⟩

/-- The part of `Get` and of `Post` after `httpClient.Do` has returned a
response: read the body with `io.ReadAll`, then decode and validate. -/
def handleResponse {Q R V : Type} (env : Env Q R V) (baseSuccessResponse : GoMap V)
    (calls : List Call) (serverResponse : Response) : Outcome R :=
  match serverResponse.Body with
  | .error err => ⟨env.zero, some ("read response error: " ++ err), calls ++ [.readAll]⟩
  | .ok bytesResponse =>
    decodeAndValidate env baseSuccessResponse (calls ++ [.readAll]) bytesResponse

/-! ## The two calls -/

/-- The request `Get` hands to `httpClient.Do`: the new GET request with the
merged headers set on it. -/
def getRequest {Q R V : Type} (env : Env Q R V) (h : GetCaller V)
    (optional : List CallOption) : Request :=
  let headers := mergeHeaders h.defaultHeaders optional
  let url := resolveURL h.baseURL h.endpoint optional
  ⟨"GET", url, setHeaders env headers GoMap.empty, none⟩

/-- The method `GetCaller.Get` (`getcaller.go` 48-114). -/
def Get {Q R V : Type} (env : Env Q R V) (h : GetCaller V)
    (optional : List CallOption) : Outcome R :=
  let res := env.zero
  let url := resolveURL h.baseURL h.endpoint optional
  match env.NewRequestWithContext "GET" url with
  | some err => ⟨res, some ("create request error: " ++ err), [.newRequest "GET" url]⟩
  | none =>
    let httpReq := getRequest env h optional
    match h.httpClient httpReq with
    | .error err =>
      ⟨res, some ("get request error: " ++ err),
        [.newRequest "GET" url, .transport httpReq]⟩
    | .ok serverResponse =>
      handleResponse env h.baseSuccessResponse
        [.newRequest "GET" url, .transport httpReq] serverResponse

/-- The request `Post` hands to `httpClient.Do`: the new POST request with the
serialized payload as body, the merged headers set on it, and then
`Header.Set("Content-Type", "application/json")`. -/
def postRequest {Q R V : Type} (env : Env Q R V) (h : PostCaller V)
    (reqBody : Bytes) (optional : List CallOption) : Request :=
  let headers := mergeHeaders h.defaultHeaders optional
  let url := resolveURL h.baseURL h.endpoint optional
  ⟨"POST", url,
    Header_Set env (setHeaders env headers GoMap.empty) "Content-Type" "application/json",
    some reqBody⟩

/-- The method `PostCaller.Post` (`postcaller.go` 49-122). -/
def Post {Q R V : Type} (env : Env Q R V) (h : PostCaller V) (req : Q)
    (optional : List CallOption) : Outcome R :=
  let res := env.zero
  match env.Marshal req with
  | .error err => ⟨res, some ("marshal request error: " ++ err), [.marshal]⟩
  | .ok reqBody =>
    let url := resolveURL h.baseURL h.endpoint optional
    match env.NewRequestWithContext "POST" url with
    | some err =>
      ⟨res, some ("create request error: " ++ err), [.marshal, .newRequest "POST" url]⟩
    | none =>
      let httpReq := postRequest env h reqBody optional
      match h.httpClient httpReq with
      | .error err =>
        ⟨res, some ("post request error: " ++ err),
          [.marshal, .newRequest "POST" url, .transport httpReq]⟩
      | .ok serverResponse =>
        handleResponse env h.baseSuccessResponse
          [.marshal, .newRequest "POST" url, .transport httpReq] serverResponse

/-! ## Preconditions of the claims on responses -/

/-- The stages of `Get` up to the read succeed: the request is created, the
transport delivers a response and reading its body gives `bytes`. -/
def GetReads {Q R V : Type} (env : Env Q R V) (h : GetCaller V)
    (optional : List CallOption) (bytes : Bytes) : Prop :=
  env.NewRequestWithContext "GET" (resolveURL h.baseURL h.endpoint optional) = none ∧
  ∃ resp, h.httpClient (getRequest env h optional) = .ok resp ∧ resp.Body = .ok bytes

/-- The stages of `Post` up to the read succeed: the payload is serialized,
the request is created, the transport delivers a response and reading its body
gives `bytes`. -/
def PostReads {Q R V : Type} (env : Env Q R V) (h : PostCaller V) (req : Q)
    (optional : List CallOption) (bytes : Bytes) : Prop :=
  ∃ reqBody, env.Marshal req = .ok reqBody ∧
    env.NewRequestWithContext "POST" (resolveURL h.baseURL h.endpoint optional) = none ∧
    ∃ resp, h.httpClient (postRequest env h reqBody optional) = .ok resp ∧
      resp.Body = .ok bytes

/-- The method `Header.Values(key)`: the values stored under the canonical
form of `key`. -/
def Header_Values {Q R V : Type} (env : Env Q R V) (hdr : GoMap (List String))
    (key : String) : Option (List String) :=
  hdr.get? (env.CanonicalMIMEHeaderKey key)

/-! ## A concrete environment for the examples -/

/-- The values of `interface{}` that occur in the examples: nil, strings,
booleans, an `int`, and a `float64` whose value is an integer `m` with
`|m| ≤ 2^53` (every such integer is a float64). `json.Unmarshal` into
`map[string]interface{}` decodes a JSON number into a `float64`. -/
inductive Value where
  | null : Value
  | str : String → Value
  | bool : Bool → Value
  | int : Int → Value
  | float64 : (m : Int) → m.natAbs ≤ 2 ^ 53 → Value
  deriving DecidableEq

/-- The text of `strconv.FormatInt(n, 10)`, which `%v` prints for an `int`. -/
def formatInt (n : Int) : String :=
  (if n < 0 then "-" else "") ++ ⟨Nat.toDigits 10 n.natAbs⟩

/-- The decimal digits without the trailing zeros: the digits `digs.d[:nd]` of
the shortest decimal that `strconv` computes for an integer-valued float. -/
def stripTrailingZeros (ds : List Char) : List Char :=
  (ds.reverse.dropWhile (fun c => c = '0')).reverse

/-- The exponent of the `%e` form: at least two digits. -/
def exponentDigits (e : Nat) : List Char :=
  if e < 10 then '0' :: Nat.toDigits 10 e else Nat.toDigits 10 e

/-- The text of `strconv.FormatFloat(f, 'g', -1, 64)`, which `%v` prints for a
`float64`, when `f` is the integer `m`. With `dp` the number of decimal digits
of `m` and `exp = dp - 1`, the shortest format uses the `%e` form when
`exp < -4 || exp >= 6` (never `exp < -4` for an integer) and the `%f` form with
no fraction digits otherwise. Zero has no digits and prints `0`. -/
def formatFloat64 (m : Int) : String :=
  if m = 0 then "0"
  else
    let all := Nat.toDigits 10 m.natAbs
    let d := stripTrailingZeros all
    let exp := all.length - 1
    let sign := if m < 0 then "-" else ""
    if exp ≥ 6 then
      sign ++ ⟨d.take 1 ++ (if d.length > 1 then '.' :: d.drop 1 else []) ++
        'e' :: '+' :: exponentDigits exp⟩
    else sign ++ ⟨all⟩

/-- The text `fmt.Sprintf("%v", v)` on the values of the examples. -/
def Value.sprint : Value → String
  | .null => "<nil>"
  | .str s => s
  | .bool b => if b then "true" else "false"
  | .int n => formatInt n
  | .float64 m _ => formatFloat64 m

/-- The request payloads of the examples: a JSON object of strings, or a
channel (`chan int`), which `json.Marshal` rejects. -/
inductive Payload where
  | object : List (String × String) → Payload
  | channel : Payload

/-- The outcome of `json.Marshal` on the payloads of the examples; the bytes of
an object are left abstract (its keys joined by commas). -/
def demoMarshal : Payload → Except String Bytes
  | .object fields => .ok (",".intercalate (fields.map Prod.fst))
  | .channel => .error "json: unsupported type: chan int"

/-- The table `validHeaderFieldByte` of `net/textproto`: the token characters
of RFC 7230. -/
def validHeaderFieldByte (c : Char) : Bool :=
  c.isAlphanum || "!#$%&*+-.^_|~".data.contains c || c = Char.ofNat 39 || c = Char.ofNat 96

/-- The second loop of `canonicalMIMEHeaderKey`: upper case for the first
letter and for a letter after `-`, lower case for the other letters. -/
def canonicalChars : Bool → List Char → List Char
  | _, [] => []
  | upper, c :: cs =>
    let c' := if upper && c.isLower then c.toUpper
      else if !upper && c.isUpper then c.toLower else c
    c' :: canonicalChars (c' = '-') cs

/-- The function `textproto.CanonicalMIMEHeaderKey`: a key with a character
that is not a token character is returned unchanged. -/
def canonicalMIMEHeaderKey (s : String) : String :=
  if s.data.all validHeaderFieldByte then ⟨canonicalChars true s.data⟩ else s

/-- The body of the tests on a matching expectation. -/
def successBody : Bytes := "\x7b\"test\": \"data\", \"status\": \"success\"\x7d"

/-- The body of the tests on a mismatched expectation (the default body of the
mock transport). -/
def errorBody : Bytes := "\x7b\"test\": \"data\", \"status\": \"error\"\x7d"

/-- A body with the fields `title` and `body` of the demo. -/
def titleBody : Bytes := "\x7b\"title\": \"foo\", \"body\": \"bar\"\x7d"

/-- The body of the test on a decode failure. -/
def invalidBody : Bytes := "\x7binvalid json\x7d"

/-- The body of the demo: a post with `id` 1 and `userId` 1. -/
def postBody : Bytes :=
  "\x7b\"id\":1,\"title\":\"foo\",\"body\":\"bar\",\"userId\":1\x7d"

/-- A post whose `userId` is 1000000. -/
def largeUserBody : Bytes :=
  "\x7b\"id\":1,\"title\":\"foo\",\"body\":\"bar\",\"userId\":1000000\x7d"

/-- The bodies of the examples with the map `json.Unmarshal` decodes them to;
any other body is not JSON. -/
def demoDecode (b : Bytes) : Except String (GoMap Value) :=
  if b = successBody then
    .ok ⟨[("test", .str "data"), ("status", .str "success")], by decide⟩
  else if b = errorBody then
    .ok ⟨[("test", .str "data"), ("status", .str "error")], by decide⟩
  else if b = titleBody then
    .ok ⟨[("title", .str "foo"), ("body", .str "bar")], by decide⟩
  else if b = postBody then
    .ok ⟨[("id", .float64 1 (by decide)), ("title", .str "foo"), ("body", .str "bar"),
      ("userId", .float64 1 (by decide))], by decide⟩
  else if b = largeUserBody then
    .ok ⟨[("id", .float64 1 (by decide)), ("title", .str "foo"), ("body", .str "bar"),
      ("userId", .float64 1000000 (by decide))], by decide⟩
  else .error "invalid character"

/-- The environment of the examples: the response type is
`map[string]interface{}`, every request can be created, the local `headers`
are visited in the order of their entries. -/
def demoEnv : Env Payload (GoMap Value) Value where
  zero := GoMap.empty
  nilValue := .null
  sprintV := Value.sprint
  Marshal := demoMarshal
  NewRequestWithContext := fun _ _ => none
  CanonicalMIMEHeaderKey := canonicalMIMEHeaderKey
  rangeOrder := fun m => m.entries
  Unmarshal := fun b res =>
    match demoDecode b with
    | .ok m => (m, none)
    | .error e => (res, some e)
  UnmarshalMap := demoDecode

/-- The mock transport of the tests: every request is answered with `body`. -/
def demoClient (body : Bytes) : Request → Except String Response :=
  fun _ => .ok ⟨.ok body⟩

/-- The default headers of the tests. -/
def authHeaders : GoMap String :=
  ⟨[("Authorization", "Bearer default_token_here")], by decide⟩

/-- The expectation `status = "success"` of the tests. -/
def expectStatus : GoMap Value := ⟨[("status", .str "success")], by decide⟩

/-- The expectation `title = "not match"` of the demo. -/
def expectTitle : GoMap Value := ⟨[("title", .str "not match")], by decide⟩

/-- The GET caller of the tests: mock transport answering `body`, default
headers, expectation map `E` (`none` for a nil map). -/
def demoGetCaller (body : Bytes) (E : Option (GoMap Value)) : GetCaller Value :=
  NewGetCaller (demoClient body) "https://example.com" "test" [⟨some authHeaders, E⟩]

/-- The POST caller of the tests, built like `demoGetCaller`. -/
def demoPostCaller (body : Bytes) (E : Option (GoMap Value)) : PostCaller Value :=
  NewPostCaller (demoClient body) "https://example.com" "test" [⟨some authHeaders, E⟩]

/-- The payload of the tests. -/
def demoPayload : Payload := .object [("test", "data")]

/-! ## Maps as references (`getcaller.go` 48-114, `postcaller.go` 49-122)

A Go map is a reference: the fields `defaultHeaders`, `baseSuccessResponse`,
`Header` and `PathParam` hold the address of a map object that the caller of
the package shares. `GetM` and `PostM` are `Get` and `Post` with the map
objects in a memory and the fields given by address, so that the writes of a
call are explicit. The collaborators are handed strings, bytes and the
request, never one of these maps, and stay functions of their arguments. -/

/-- The map objects of the program: address `a` of a `map[string]string` is
position `a` of `strMaps`, address `a` of a `map[string]interface{}` is
position `a` of `valMaps`. -/
structure Heap (V : Type) where
  strMaps : List (GoMap String)
  valMaps : List (GoMap V)

namespace Heap

/-- The allocation `make(map[string]string)`: a new empty map at the first
unused address. -/
def makeStr {V : Type} (hp : Heap V) : Nat × Heap V :=
  (hp.strMaps.length, { hp with strMaps := hp.strMaps ++ [GoMap.empty] })

/-- The allocation `make(map[string]interface{})`. -/
def makeVal {V : Type} (hp : Heap V) : Nat × Heap V :=
  (hp.valMaps.length, { hp with valMaps := hp.valMaps ++ [GoMap.empty] })

/-- The `map[string]string` at address `a`. -/
def loadStr {V : Type} (hp : Heap V) (a : Nat) : GoMap String :=
  hp.strMaps.getD a GoMap.empty

/-- The `map[string]interface{}` at address `a`. -/
def loadVal {V : Type} (hp : Heap V) (a : Nat) : GoMap V :=
  hp.valMaps.getD a GoMap.empty

/-- The assignment `m[k] = v` through the address `a` of `m`. -/
def storeStr {V : Type} (hp : Heap V) (a : Nat) (k v : String) : Heap V :=
  { hp with strMaps := hp.strMaps.set a ((hp.loadStr a).set k v) }

/-- The effect of a successful `json.Unmarshal(b, &responseMap)` on the fresh
map at address `a`: it holds the decoded entries. -/
def fillVal {V : Type} (hp : Heap V) (a : Nat) (m : GoMap V) : Heap V :=
  { hp with valMaps := hp.valMaps.set a m }

/-- The loop `for key, value := range src { dst[key] = value }` through the
addresses of the two maps. The entries of `src` are those at the start of the
loop: the body adds no key to `src` (when `dst` is `src` it rewrites each entry
with its own value). -/
def copyRange {V : Type} (hp : Heap V) (src dst : Nat) : Heap V :=
  (hp.loadStr src).entries.foldl (fun hp kv => hp.storeStr dst kv.1 kv.2) hp

end Heap

/-- The struct `CallOption` with its maps given by address; `none` is nil. -/
structure CallOptionRef where
  Header : Option Nat
  PathParam : Option Nat

/-- The struct `GetCaller` with its maps given by address. -/
structure GetCallerRef where
  httpClient : Request → Except String Response
  baseURL : String
  endpoint : String
  defaultHeaders : Nat
  baseSuccessResponse : Nat

/-- The struct `PostCaller` with its maps given by address. -/
structure PostCallerRef where
  httpClient : Request → Except String Response
  baseURL : String
  endpoint : String
  defaultHeaders : Nat
  baseSuccessResponse : Nat

/-- The statements of `Get` and of `Post` that build the locals `headers` and
`pathParams` (`getcaller.go` 51-67, `postcaller.go` 57-73): allocate
`headers`, copy the default headers into it, allocate `pathParams`, and with
an option copy its `Header` into `headers` when not nil and let `pathParams`
be its `PathParam` when not nil. Returns the two addresses and the memory. -/
def buildMaps {V : Type} (defaultHeaders : Nat) (optional : List CallOptionRef)
    (hp : Heap V) : Nat × Nat × Heap V :=
  let (headers, hp) := hp.makeStr
  let hp := hp.copyRange defaultHeaders headers
  let (pathParams, hp) := hp.makeStr
  match optional with
  | [] => (headers, pathParams, hp)
  | opt :: _ =>
    let hp :=
      match opt.Header with
      | none => hp
      | some src => hp.copyRange src headers
    let pathParams :=
      match opt.PathParam with
      | none => pathParams
      | some pp => pp
    (headers, pathParams, hp)

/-- The part of `Get` and of `Post` after the body has been read, with the
maps in memory: as `decodeAndValidate`, where `responseMap` is a new map
object that the decode fills. -/
def decodeAndValidateM {Q R V : Type} (env : Env Q R V) (baseSuccessResponse : Nat)
    (calls : List Call) (bytesResponse : Bytes) (hp : Heap V) : Outcome R × Heap V :=
  match env.Unmarshal bytesResponse env.zero with
  | (res, some err) =>
    (⟨res, some ("unmarshal response error: " ++ err), calls ++ [.unmarshal]⟩, hp)
  | (res, none) =>
    if (hp.loadVal baseSuccessResponse).len > 0 then
      let (responseMap, hp) := hp.makeVal
      match env.UnmarshalMap bytesResponse with
      | .error err =>
        (⟨res, some ("unmarshal response map error: " ++ err),
          calls ++ [.unmarshal, .unmarshalMap]⟩, hp)
      | .ok decoded =>
        let hp := hp.fillVal responseMap decoded
        (⟨res, checkExpected env (hp.loadVal responseMap)
            (hp.loadVal baseSuccessResponse).entries,
          calls ++ [.unmarshal, .unmarshalMap]⟩, hp)
    else (⟨res, none, calls ++ [.unmarshal]⟩, hp)

/-- The part of `Get` and of `Post` after `httpClient.Do` has returned a
response, with the maps in memory. -/
def handleResponseM {Q R V : Type} (env : Env Q R V) (baseSuccessResponse : Nat)
    (calls : List Call) (serverResponse : Response) (hp : Heap V) :
    Outcome R × Heap V :=
  match serverResponse.Body with
  | .error err =>
    (⟨env.zero, some ("read response error: " ++ err), calls ++ [.readAll]⟩, hp)
  | .ok bytesResponse =>
    decodeAndValidateM env baseSuccessResponse (calls ++ [.readAll]) bytesResponse hp

/-- The method `GetCaller.Get` with the maps in memory: the values it returns,
its collaborator calls, and the memory when it returns. -/
def GetM {Q R V : Type} (env : Env Q R V) (h : GetCallerRef)
    (optional : List CallOptionRef) (hp : Heap V) : Outcome R × Heap V :=
  let res := env.zero
  let (headers, pathParams, hp) := buildMaps h.defaultHeaders optional hp
  let url := substitute (hp.loadStr pathParams).entries (h.baseURL ++ "/" ++ h.endpoint)
  match env.NewRequestWithContext "GET" url with
  | some err =>
    (⟨res, some ("create request error: " ++ err), [.newRequest "GET" url]⟩, hp)
  | none =>
    let httpReq : Request :=
      ⟨"GET", url, setHeaders env (hp.loadStr headers) GoMap.empty, none⟩
    match h.httpClient httpReq with
    | .error err =>
      (⟨res, some ("get request error: " ++ err),
        [.newRequest "GET" url, .transport httpReq]⟩, hp)
    | .ok serverResponse =>
      handleResponseM env h.baseSuccessResponse
        [.newRequest "GET" url, .transport httpReq] serverResponse hp

/-- The method `PostCaller.Post` with the maps in memory. -/
def PostM {Q R V : Type} (env : Env Q R V) (h : PostCallerRef) (req : Q)
    (optional : List CallOptionRef) (hp : Heap V) : Outcome R × Heap V :=
  let res := env.zero
  match env.Marshal req with
  | .error err => (⟨res, some ("marshal request error: " ++ err), [.marshal]⟩, hp)
  | .ok reqBody =>
    let (headers, pathParams, hp) := buildMaps h.defaultHeaders optional hp
    let url :=
      substitute (hp.loadStr pathParams).entries (h.baseURL ++ "/" ++ h.endpoint)
    match env.NewRequestWithContext "POST" url with
    | some err =>
      (⟨res, some ("create request error: " ++ err),
        [.marshal, .newRequest "POST" url]⟩, hp)
    | none =>
      let httpReq : Request :=
        ⟨"POST", url,
          Header_Set env (setHeaders env (hp.loadStr headers) GoMap.empty)
            "Content-Type" "application/json",
          some reqBody⟩
      match h.httpClient httpReq with
      | .error err =>
        (⟨res, some ("post request error: " ++ err),
          [.marshal, .newRequest "POST" url, .transport httpReq]⟩, hp)
      | .ok serverResponse =>
        handleResponseM env h.baseSuccessResponse
          [.marshal, .newRequest "POST" url, .transport httpReq] serverResponse hp

/-- The caller and the options of a call as values: every map field read from
the memory. -/
def GetCallerRef.deref {V : Type} (h : GetCallerRef) (hp : Heap V) : GetCaller V :=
  ⟨h.httpClient, h.baseURL, h.endpoint, hp.loadStr h.defaultHeaders,
    hp.loadVal h.baseSuccessResponse⟩

/-- The `PostCaller` value of a `PostCallerRef` in the memory `hp`. -/
def PostCallerRef.deref {V : Type} (h : PostCallerRef) (hp : Heap V) : PostCaller V :=
  ⟨h.httpClient, h.baseURL, h.endpoint, hp.loadStr h.defaultHeaders,
    hp.loadVal h.baseSuccessResponse⟩

/-- The `CallOption` value of a `CallOptionRef` in the memory `hp`. -/
def CallOptionRef.deref {V : Type} (opt : CallOptionRef) (hp : Heap V) : CallOption :=
  ⟨opt.Header.map hp.loadStr, opt.PathParam.map hp.loadStr⟩

/-- Every map address of the caller and of the options is an address of a map
object of the memory and the default headers are not nil. -/
def ValidRefs {V : Type} (hp : Heap V) (defaultHeaders baseSuccessResponse : Nat)
    (optional : List CallOptionRef) : Prop :=
  defaultHeaders < hp.strMaps.length ∧ baseSuccessResponse < hp.valMaps.length ∧
  ∀ opt ∈ optional,
    (∀ a, opt.Header = some a → a < hp.strMaps.length) ∧
    (∀ a, opt.PathParam = some a → a < hp.strMaps.length)

/-- The memory of the examples: the default headers at address 0, the override
`Custom-Header` at address 1, the path parameter `id` at address 2, and the
expectation `status = "success"` at address 0 of the value maps. -/
def demoHeap : Heap Value where
  strMaps :=
    [authHeaders, ⟨[("Custom-Header", "custom_value")], by decide⟩,
      ⟨[("id", "123")], by decide⟩]
  valMaps := [expectStatus]

/-- The GET caller of the examples with its maps in `demoHeap`. -/
def demoGetCallerRef (body : Bytes) : GetCallerRef :=
  ⟨demoClient body, "https://example.com", "test/:id", 0, 0⟩

/-- The POST caller of the examples with its maps in `demoHeap`. -/
def demoPostCallerRef (body : Bytes) : PostCallerRef :=
  ⟨demoClient body, "https://example.com", "test/:id", 0, 0⟩

/-- The option of the examples: `Header` at address 1, `PathParam` at 2. -/
def demoOptionRef : CallOptionRef := ⟨some 1, some 2⟩

/-! ## Lemmas on Go maps -/

theorem lookup_cons_ite {V : Type} (a k : String) (v : V) (l : List (String × V)) :
    List.lookup a ((k, v) :: l) = if a = k then some v else List.lookup a l := by
  by_cases h : a = k
  · subst h
    simp [List.lookup]
  · have hb : (a == k) = false := by simpa using h
    simp [List.lookup, hb, h]

theorem lookup_putEntry {V : Type} (k : String) (v : V) (l : List (String × V))
    (a : String) :
    (putEntry k v l).lookup a = if a = k then some v else l.lookup a := by
  induction l with
  | nil =>
    simp only [putEntry, lookup_cons_ite]
  | cons p rest ih =>
    obtain ⟨k', v'⟩ := p
    by_cases hk : k' = k
    · subst hk
      simp only [putEntry, if_true, lookup_cons_ite]
      split <;> rfl
    · simp only [putEntry, hk, if_false, lookup_cons_ite, ih]
      by_cases h : a = k
      · subst h
        have hne : ¬ a = k' := fun e => hk e.symm
        simp [hne]
      · simp [h]

theorem get?_set {V : Type} (m : GoMap V) (k : String) (v : V) (a : String) :
    (m.set k v).get? a = if a = k then some v else m.get? a :=
  lookup_putEntry k v m.entries a

theorem get?_copyInto {V : Type} (src : List (String × V))
    (hsrc : (src.map Prod.fst).Nodup) (dst : GoMap V) (a : String) :
    (GoMap.copyInto src dst).get? a =
      match src.lookup a with
      | some v => some v
      | none => dst.get? a := by
  induction src generalizing dst with
  | nil => simp [GoMap.copyInto]
  | cons p rest ih =>
    obtain ⟨k, v⟩ := p
    rw [List.map_cons, List.nodup_cons] at hsrc
    have hstep : GoMap.copyInto ((k, v) :: rest) dst = GoMap.copyInto rest (dst.set k v) := rfl
    rw [hstep, ih hsrc.2, get?_set]
    by_cases h : a = k
    · subst h
      have hnone : rest.lookup a = none := by
        rw [List.lookup_eq_none_iff]
        intro p hp
        have hmem : p.1 ∈ rest.map Prod.fst := List.mem_map_of_mem _ hp
        have hne : a ≠ p.1 := fun e => hsrc.1 (e ▸ hmem)
        simpa using hne
      simp [lookup_cons_ite, hnone]
    · simp [lookup_cons_ite, h]



/-! ## Header merge -/

theorem get?_empty {V : Type} (a : String) : (GoMap.empty : GoMap V).get? a = none := rfl

theorem get?_mergeHeaders (D : GoMap String) (optional : List CallOption) (k : String) :
    (mergeHeaders D optional).get? k =
      match (headerOverrides optional).get? k with
      | some v => some v
      | none => D.get? k := by
  have hD : (GoMap.copyInto D.entries GoMap.empty).get? k = D.get? k := by
    rw [get?_copyInto D.entries D.nodup, get?_empty]
    unfold GoMap.get?
    cases List.lookup k D.entries <;> rfl
  cases optional with
  | nil => simpa [mergeHeaders, headerOverrides, get?_empty] using hD
  | cons opt rest =>
    cases hO : opt.Header with
    | none => simpa [mergeHeaders, headerOverrides, hO, get?_empty] using hD
    | some O =>
      simp only [mergeHeaders, headerOverrides, hO, Option.getD_some]
      rw [get?_copyInto O.entries O.nodup, hD]
      simp only [GoMap.get?]
      cases List.lookup k O.entries <;> rfl

/-- C1: the merged header set of `Get` and of `Post` is the defaults overlaid
by the overrides. For every key `k` the merged map holds the override value
when the override map (empty when no option is passed or `Header` is nil) has
`k`, otherwise the default value when the defaults have `k`, otherwise nothing.
The defaults `Authorization` with the override `Custom-Header` give both
entries. -/
theorem merged_headers_override_wins :
    (∀ (D : GoMap String) (optional : List CallOption) (k : String),
      (mergeHeaders D optional).get? k =
        match (headerOverrides optional).get? k with
        | some v => some v
        | none => D.get? k) ∧
    (mergeHeaders ⟨[("Authorization", "Bearer default_token_here")], by decide⟩
        [⟨some ⟨[("Custom-Header", "custom_value")], by decide⟩, none⟩]).entries =
      [("Authorization", "Bearer default_token_here"), ("Custom-Header", "custom_value")] :=
  ⟨get?_mergeHeaders, by decide⟩

/-! ## Replacement and the base URL -/

theorem not_prefix_across_slash (old X T : List Char) (hs : '/' ∉ old)
    (hX : ¬ old <+: X) : ¬ old <+: X ++ '/' :: T := by
  intro h
  have h2 : X ++ ['/'] <+: X ++ '/' :: T := ⟨T, by simp⟩
  rcases List.prefix_or_prefix_of_prefix h h2 with h3 | h3
  · rw [List.prefix_concat_iff] at h3
    rcases h3 with h3 | h3
    · exact hs (by rw [h3]; simp)
    · exact hX h3
  · exact hs (h3.subset (by simp))

theorem replaceScan_base (old new : List Char) (hne : old ≠ []) (hs : '/' ∉ old)
    (B T : List Char) (hB : ¬ old <:+: B) :
    replaceScan old new 0 (B ++ '/' :: T) = B ++ '/' :: replaceScan old new 0 T := by
  induction B with
  | nil =>
    have hno : ¬ old <+: [] ++ '/' :: T :=
      not_prefix_across_slash old [] T hs (by simpa using hne)
    have hb : old.isPrefixOf ('/' :: T) = false := by
      rw [Bool.eq_false_iff]
      intro hp
      exact hno (by simpa using hp)
    simp [replaceScan, hb]
  | cons b B' ih =>
    have hno : ¬ old <+: (b :: B') ++ '/' :: T :=
      not_prefix_across_slash old (b :: B') T hs (fun hp => hB hp.isInfix)
    have hb : old.isPrefixOf (b :: (B' ++ '/' :: T)) = false := by
      rw [Bool.eq_false_iff]
      intro hp
      exact hno (by simpa using hp)
    have hB' : ¬ old <:+: B' := fun hi => hB (List.infix_cons hi)
    simp [replaceScan, hb, ih hB']

theorem placeholder_data (k : String) : (":" ++ k).data = ':' :: k.data := rfl

theorem strings_Replace_base_aux (B T old v : String) (hne : old.data ≠ [])
    (hs : '/' ∉ old.data) (hB : ¬ old.data <:+: B.data) :
    strings_Replace (B ++ "/" ++ T) old v = B ++ "/" ++ strings_Replace T old v := by
  apply String.ext
  have hd : (B ++ "/" ++ T).data = B.data ++ '/' :: T.data := by
    simp [String.data_append]
  simp only [strings_Replace, if_neg hne, hd]
  rw [replaceScan_base _ _ hne hs _ _ hB]
  simp [String.data_append]

theorem strings_Replace_base (B T k v : String) (hk : '/' ∉ k.data)
    (hB : ¬ (":" ++ k).data <:+: B.data) :
    strings_Replace (B ++ "/" ++ T) (":" ++ k) v =
      B ++ "/" ++ strings_Replace T (":" ++ k) v := by
  have hne : (":" ++ k).data ≠ [] := by simp [placeholder_data]
  have hs : '/' ∉ (":" ++ k).data := by
    rw [placeholder_data]
    simp only [List.mem_cons, not_or]
    exact ⟨by decide, hk⟩
  exact strings_Replace_base_aux B T (":" ++ k) v hne hs hB

theorem substitute_base (P : List (String × String)) (B T : String)
    (hP : ∀ kv ∈ P, '/' ∉ kv.1.data ∧ ¬ (":" ++ kv.1).data <:+: B.data) :
    substitute P (B ++ "/" ++ T) = B ++ "/" ++ substitute P T := by
  induction P generalizing T with
  | nil => rfl
  | cons kv rest ih =>
    have h1 := hP kv (List.mem_cons_self _ _)
    have hstep : ∀ u, substitute (kv :: rest) u =
        substitute rest (strings_Replace u (":" ++ kv.1) kv.2) := fun _ => rfl
    rw [hstep, hstep, strings_Replace_base B T kv.1 kv.2 h1.1 h1.2]
    exact ih _ (fun p hp => hP p (List.mem_cons_of_mem _ hp))

theorem replaceScan_skip (old new : List Char) (n : Nat) (s : List Char) :
    replaceScan old new n s = replaceScan old new 0 (s.drop n) := by
  induction s generalizing n with
  | nil => cases n <;> simp [replaceScan]
  | cons c cs ih =>
    cases n with
    | zero => rfl
    | succ m =>
      rw [List.drop_succ_cons, ← ih m]
      rfl

theorem replaceOccurrences_eq_scan (old new : List Char) (hne : old ≠ []) (fuel : Nat)
    (s : List Char) (hfuel : s.length ≤ fuel) :
    replaceOccurrences old new fuel s = replaceScan old new 0 s := by
  induction fuel generalizing s with
  | zero =>
    have hs : s = [] := List.length_eq_zero.1 (Nat.le_zero.1 hfuel)
    subst hs
    rfl
  | succ fuel ih =>
    cases s with
    | nil => rfl
    | cons c cs =>
      have hcs : cs.length ≤ fuel := by
        simpa using hfuel
      have hpos : old.length = (old.length - 1) + 1 := by
        have : 0 < old.length := List.length_pos.2 hne
        omega
      by_cases hp : old.isPrefixOf (c :: cs) = true
      · have hdrop : (c :: cs).drop old.length = cs.drop (old.length - 1) := by
          rw [hpos, List.drop_succ_cons]
          simp
        have hlen : (cs.drop (old.length - 1)).length ≤ fuel := by
          rw [List.length_drop]
          omega
        simp only [replaceOccurrences, replaceScan, hp, if_true, hdrop]
        rw [ih _ hlen, ← replaceScan_skip]
      · simp only [replaceOccurrences, replaceScan, hp]
        rw [ih cs hcs]
        rfl

theorem withOccurrencesReplaced_eq (T k v : String) :
    withOccurrencesReplaced T (":" ++ k) v = strings_Replace T (":" ++ k) v := by
  have hne : (":" ++ k).data ≠ [] := by simp [placeholder_data]
  simp only [withOccurrencesReplaced, strings_Replace, if_neg hne]
  rw [replaceOccurrences_eq_scan _ _ hne _ _ (Nat.le_refl _)]

/-! ## C3, C9, C10: the resolved URL -/

theorem request_URL_eq_resolveURL {Q R V : Type} (env : Env Q R V) (g : GetCaller V)
    (p : PostCaller V) (reqBody : Bytes) (optional : List CallOption) :
    (getRequest env g optional).URL = resolveURL g.baseURL g.endpoint optional ∧
    (postRequest env p reqBody optional).URL =
      resolveURL p.baseURL p.endpoint optional :=
  ⟨rfl, rfl⟩

/-- C3: with exactly one path parameter `k -> v`, where `k` has no `/` and the
text `:k` does not occur in the base URL `B`, the URL resolved by `Get` and by
`Post` is `B + "/" + T'`, with `T'` the endpoint template `T` in which every
occurrence of `:k` (left to right, not overlapping) is replaced by `v` and all
other text is unchanged. -/
theorem resolveURL_single_param (B T k v : String) (optional : List CallOption)
    (hP : (pathParamsOf optional).entries = [(k, v)])
    (hk : '/' ∉ k.data) (hB : ¬ (":" ++ k).data <:+: B.data) :
    resolveURL B T optional = B ++ "/" ++ withOccurrencesReplaced T (":" ++ k) v := by
  rw [withOccurrencesReplaced_eq]
  simp only [resolveURL, hP]
  exact strings_Replace_base B T k v hk hB

/-- Witness of C3: base `https://example.com`, template `posts/:id` and the
parameter `id -> 123` resolve to `https://example.com/posts/123`. -/
theorem resolveURL_single_param_witness :
    resolveURL "https://example.com" "posts/:id"
        [⟨none, some ⟨[("id", "123")], by decide⟩⟩] =
      "https://example.com" ++ "/" ++
        withOccurrencesReplaced "posts/:id" (":" ++ "id") "123" ∧
    "https://example.com" ++ "/" ++
        withOccurrencesReplaced "posts/:id" (":" ++ "id") "123" =
      "https://example.com/posts/123" :=
  ⟨resolveURL_single_param "https://example.com" "posts/:id" "id" "123"
      [⟨none, some ⟨[("id", "123")], by decide⟩⟩] rfl (by decide) (by decide),
    by decide⟩

/-- Counterexample to C9: with base URL `http://localhost:8080`, template
`items/:8080` and the path parameter `8080 -> 42`, the resolved URL is
`http://localhost42/items/42`; the text of the base URL has changed, so the
URL is not the base URL, `/` and the substituted template. -/
theorem resolveURL_rewrites_base :
    resolveURL "http://localhost:8080" "items/:8080"
        [⟨none, some ⟨[("8080", "42")], by decide⟩⟩] = "http://localhost42/items/42" ∧
    resolveURL "http://localhost:8080" "items/:8080"
        [⟨none, some ⟨[("8080", "42")], by decide⟩⟩] ≠
      "http://localhost:8080" ++ "/" ++
        substitute [("8080", "42")] "items/:8080" := by
  decide

/-- C9 as amended: the URL resolved by `Get` and by `Post` is the text
`B + "/" + T` after the substitution of the path parameters in visiting order;
when no key of the path parameters contains `/` and no placeholder `:key`
occurs in the base URL `B`, it is `B + "/" + S`, with `S` the endpoint template
after that substitution. -/
theorem resolveURL_keeps_base (B T : String) (optional : List CallOption) :
    resolveURL B T optional =
      substitute (pathParamsOf optional).entries (B ++ "/" ++ T) ∧
    ((∀ kv ∈ (pathParamsOf optional).entries,
        '/' ∉ kv.1.data ∧ ¬ (":" ++ kv.1).data <:+: B.data) →
      resolveURL B T optional =
        B ++ "/" ++ substitute (pathParamsOf optional).entries T) := by
  refine ⟨rfl, ?_⟩
  intro hP
  simp only [resolveURL]
  exact substitute_base _ B T hP

/-- Witness of C9 as amended: two parameters on the base `https://example.com`. -/
theorem resolveURL_keeps_base_witness :
    resolveURL "https://example.com" "users/:uid/posts/:pid"
        [⟨none, some ⟨[("uid", "7"), ("pid", "123")], by decide⟩⟩] =
      "https://example.com" ++ "/" ++
        substitute (pathParamsOf
          [⟨none, some ⟨[("uid", "7"), ("pid", "123")], by decide⟩⟩]).entries
          "users/:uid/posts/:pid" ∧
    "https://example.com" ++ "/" ++
        substitute [("uid", "7"), ("pid", "123")] "users/:uid/posts/:pid" =
      "https://example.com/users/7/posts/123" :=
  ⟨(resolveURL_keeps_base "https://example.com" "users/:uid/posts/:pid"
      [⟨none, some ⟨[("uid", "7"), ("pid", "123")], by decide⟩⟩]).2 (by decide),
    by decide⟩

/-- Counterexample to C10: the path parameters `id -> 1`, `idx -> 2` on the
template `users/:id/items/:idx` resolve to `.../users/1/items/1x` when `id` is
visited first and to `.../users/1/items/2` when `idx` is visited first: the
resolved URL depends on the order in which `pathParams` is visited. -/
theorem resolveURL_depends_on_order :
    List.Perm [("id", "1"), ("idx", "2")] [("idx", "2"), ("id", "1")] ∧
    resolveURL "https://example.com" "users/:id/items/:idx"
        [⟨none, some ⟨[("id", "1"), ("idx", "2")], by decide⟩⟩] =
      "https://example.com/users/1/items/1x" ∧
    resolveURL "https://example.com" "users/:id/items/:idx"
        [⟨none, some ⟨[("idx", "2"), ("id", "1")], by decide⟩⟩] =
      "https://example.com/users/1/items/2" :=
  ⟨List.Perm.swap _ _ _, by decide, by decide⟩

/-! ## Reaching the validation -/

theorem Get_of_reads {Q R V : Type} (env : Env Q R V) (g : GetCaller V)
    (optional : List CallOption) (bytes : Bytes) (hr : GetReads env g optional bytes) :
    Get env g optional =
      decodeAndValidate env g.baseSuccessResponse
        ([.newRequest "GET" (resolveURL g.baseURL g.endpoint optional),
          .transport (getRequest env g optional)] ++ [.readAll]) bytes := by
  obtain ⟨hreq, resp, hdo, hbody⟩ := hr
  simp only [Get, hreq, hdo, handleResponse, hbody]

theorem Post_of_reads {Q R V : Type} (env : Env Q R V) (p : PostCaller V) (req : Q)
    (optional : List CallOption) (bytes : Bytes) (hr : PostReads env p req optional bytes) :
    ∃ reqBody, Post env p req optional =
      decodeAndValidate env p.baseSuccessResponse
        ([.marshal, .newRequest "POST" (resolveURL p.baseURL p.endpoint optional),
          .transport (postRequest env p reqBody optional)] ++ [.readAll]) bytes := by
  obtain ⟨reqBody, hm, hreq, resp, hdo, hbody⟩ := hr
  exact ⟨reqBody, by simp only [Post, hm, hreq, hdo, handleResponse, hbody]⟩

theorem decodeAndValidate_checked {Q R V : Type} (env : Env Q R V) (E : GoMap V)
    (calls : List Call) (bytes : Bytes) (r : R) (M : GoMap V)
    (hdec : env.Unmarshal bytes env.zero = (r, none))
    (hmap : env.UnmarshalMap bytes = .ok M) (hlen : 0 < E.len) :
    decodeAndValidate env E calls bytes =
      ⟨r, checkExpected env M E.entries, calls ++ [.unmarshal, .unmarshalMap]⟩ := by
  simp [decodeAndValidate, hdec, hmap, hlen]

theorem decodeAndValidate_unchecked {Q R V : Type} (env : Env Q R V) (E : GoMap V)
    (calls : List Call) (bytes : Bytes) (r : R)
    (hdec : env.Unmarshal bytes env.zero = (r, none)) (hlen : E.len = 0) :
    decodeAndValidate env E calls bytes = ⟨r, none, calls ++ [.unmarshal]⟩ := by
  simp [decodeAndValidate, hdec, hlen]

theorem decodeAndValidate_undecodable {Q R V : Type} (env : Env Q R V) (E : GoMap V)
    (calls : List Call) (bytes : Bytes) (r : R) (e : String)
    (hdec : env.Unmarshal bytes env.zero = (r, some e)) :
    decodeAndValidate env E calls bytes =
      ⟨r, some ("unmarshal response error: " ++ e), calls ++ [.unmarshal]⟩ := by
  simp [decodeAndValidate, hdec]

/-! ## The loop over the expected entries -/

theorem checkExpected_cons {Q R V : Type} (env : Env Q R V) (M : GoMap V)
    (K : String) (ev : V) (rest : List (String × V)) :
    checkExpected env M ((K, ev) :: rest) =
      match M.get? K with
      | none => some (unsuccessfulMessage env K ev env.nilValue)
      | some a =>
        if env.sprintV a = env.sprintV ev then checkExpected env M rest
        else some (unsuccessfulMessage env K ev a) := by
  cases hM : M.get? K with
  | none => simp [checkExpected, hM]
  | some a =>
    by_cases hs : env.sprintV a = env.sprintV ev
    · simp [checkExpected, hM, hs]
    · simp [checkExpected, hM, hs]

theorem checkExpected_eq_none_iff {Q R V : Type} (env : Env Q R V) (M : GoMap V)
    (E : List (String × V)) :
    checkExpected env M E = none ↔
      ∀ K ev, (K, ev) ∈ E → ∃ a, M.get? K = some a ∧ env.sprintV a = env.sprintV ev := by
  induction E with
  | nil => simp [checkExpected]
  | cons q rest ih =>
    obtain ⟨K, ev⟩ := q
    rw [checkExpected_cons]
    cases hM : M.get? K with
    | none =>
      simp only [false_iff, reduceCtorEq]
      intro hall
      obtain ⟨a, ha, _⟩ := hall K ev (List.mem_cons_self _ _)
      rw [hM] at ha
      exact Option.noConfusion ha
    | some a =>
      by_cases hs : env.sprintV a = env.sprintV ev
      · simp only [hs, if_true, ih]
        constructor
        · intro hall K' ev' hmem
          rcases List.mem_cons.1 hmem with heq | hmem
          · obtain ⟨rfl, rfl⟩ := Prod.mk.inj heq
            exact ⟨a, hM, hs⟩
          · exact hall K' ev' hmem
        · intro hall K' ev' hmem
          exact hall K' ev' (List.mem_cons_of_mem _ hmem)
      · simp only [hs, if_false, false_iff, reduceCtorEq]
        intro hall
        obtain ⟨a', ha', hs'⟩ := hall K ev (List.mem_cons_self _ _)
        rw [hM] at ha'
        obtain rfl := Option.some.inj ha'
        exact hs hs'

theorem checkExpected_first_failure {Q R V : Type} (env : Env Q R V) (M : GoMap V)
    (E : List (String × V)) (msg : String) (h : checkExpected env M E = some msg) :
    ∃ pre K ev post, E = pre ++ (K, ev) :: post ∧
      (∀ K' ev', (K', ev') ∈ pre →
        ∃ a, M.get? K' = some a ∧ env.sprintV a = env.sprintV ev') ∧
      msg = unsuccessfulMessage env K ev ((M.get? K).getD env.nilValue) ∧
      (M.get? K = none ∨ ∃ a, M.get? K = some a ∧ env.sprintV a ≠ env.sprintV ev) := by
  induction E with
  | nil => simp [checkExpected] at h
  | cons q rest ih =>
    obtain ⟨K, ev⟩ := q
    rw [checkExpected_cons] at h
    cases hM : M.get? K with
    | none =>
      rw [hM] at h
      refine ⟨[], K, ev, rest, rfl, ?_, ?_, Or.inl hM⟩
      · intro K' ev' hmem
        cases hmem
      · rw [hM]
        exact (Option.some.inj h).symm
    | some a =>
      rw [hM] at h
      by_cases hs : env.sprintV a = env.sprintV ev
      · simp only [hs, if_true] at h
        obtain ⟨pre, K1, ev1, post, hE, hpre, hmsg, hbad⟩ := ih h
        refine ⟨(K, ev) :: pre, K1, ev1, post, by rw [hE]; rfl, ?_, hmsg, hbad⟩
        intro K' ev' hmem
        rcases List.mem_cons.1 hmem with heq | hmem
        · obtain ⟨rfl, rfl⟩ := Prod.mk.inj heq
          exact ⟨a, hM, hs⟩
        · exact hpre K' ev' hmem
      · simp only [hs, if_false] at h
        refine ⟨[], K, ev, rest, rfl, ?_, ?_, Or.inr ⟨a, hM, hs⟩⟩
        · intro K' ev' hmem
          cases hmem
        · rw [hM]
          exact (Option.some.inj h).symm

theorem checkExpected_stops_at {Q R V : Type} (env : Env Q R V) (M : GoMap V)
    (pre post : List (String × V)) (K : String) (ev av : V)
    (hpre : ∀ K' ev', (K', ev') ∈ pre →
      ∃ a, M.get? K' = some a ∧ env.sprintV a = env.sprintV ev')
    (hK : M.get? K = some av) (hne : env.sprintV av ≠ env.sprintV ev) :
    checkExpected env M (pre ++ (K, ev) :: post) =
      some (unsuccessfulMessage env K ev av) := by
  induction pre with
  | nil =>
    rw [List.nil_append, checkExpected_cons, hK]
    simp [hne]
  | cons q rest ih =>
    obtain ⟨K1, ev1⟩ := q
    obtain ⟨a, ha, hs⟩ := hpre K1 ev1 (List.mem_cons_self _ _)
    rw [List.cons_append, checkExpected_cons, ha]
    simp only [hs, if_true]
    exact ih (fun K' ev' hmem => hpre K' ev' (List.mem_cons_of_mem _ hmem))

/-! ## C2, C4, C8: validation against the expected entries -/

theorem unsuccessfulMessage_names_key {Q R V : Type} (env : Env Q R V) (K : String)
    (ev av : V) :
    ∃ tail, unsuccessfulMessage env K ev av = "unsuccessful response for key " ++ K ++ tail :=
  ⟨": expected " ++ env.sprintV ev ++ ", got " ++ env.sprintV av, by
    simp only [unsuccessfulMessage, String.append_assoc]⟩

theorem validation_facts {Q R V : Type} (env : Env Q R V) (M : GoMap V)
    (E : List (String × V)) (err : Option String) (herr : err = checkExpected env M E) :
    (err = none ↔
      ∀ K ev, (K, ev) ∈ E → ∃ a, M.get? K = some a ∧ env.sprintV a = env.sprintV ev) ∧
    (∀ msg, err = some msg → ∃ K ev, (K, ev) ∈ E ∧
      (M.get? K = none ∨ ∃ a, M.get? K = some a ∧ env.sprintV a ≠ env.sprintV ev) ∧
      ∃ tail, msg = "unsuccessful response for key " ++ K ++ tail) := by
  subst herr
  refine ⟨checkExpected_eq_none_iff env M E, ?_⟩
  intro msg hmsg
  obtain ⟨pre, K, ev, post, hE, _, hm, hbad⟩ := checkExpected_first_failure env M E msg hmsg
  refine ⟨K, ev, by rw [hE]; simp, hbad, ?_⟩
  rw [hm]
  exact unsuccessfulMessage_names_key env K ev _

theorem checkExpected_perm {Q R V : Type} (env : Env Q R V) (M : GoMap V)
    (E E' : List (String × V)) (hperm : E'.Perm E) :
    (checkExpected env M E' = none ↔ checkExpected env M E = none) := by
  rw [checkExpected_eq_none_iff, checkExpected_eq_none_iff]
  constructor
  · intro h K ev hmem
    exact h K ev (hperm.mem_iff.2 hmem)
  · intro h K ev hmem
    exact h K ev (hperm.mem_iff.1 hmem)

/-- C2: with a non-empty expectation map `E`, a body that is read and decodes
into the response type and into the map `M`, the calls `Get` and `Post`
succeed if and only if every key `K` of `E` is present in `M` with a value
whose `%v` form equals that of `E[K]`; a failure is the validation error
naming a key of `E` that is absent from `M` or mismatched; and success does
not depend on the order in which `E` is visited. -/
theorem validation_succeeds_iff_all_match {Q R V : Type} (env : Env Q R V)
    (g : GetCaller V) (p : PostCaller V) (req : Q) (optional : List CallOption)
    (bytes : Bytes) (r : R) (M : GoMap V)
    (hdec : env.Unmarshal bytes env.zero = (r, none))
    (hmap : env.UnmarshalMap bytes = .ok M) :
    (GetReads env g optional bytes → 0 < g.baseSuccessResponse.len →
      ((Get env g optional).err = none ↔
        ∀ K ev, (K, ev) ∈ g.baseSuccessResponse.entries →
          ∃ a, M.get? K = some a ∧ env.sprintV a = env.sprintV ev) ∧
      (∀ msg, (Get env g optional).err = some msg →
        ∃ K ev, (K, ev) ∈ g.baseSuccessResponse.entries ∧
          (M.get? K = none ∨ ∃ a, M.get? K = some a ∧ env.sprintV a ≠ env.sprintV ev) ∧
          ∃ tail, msg = "unsuccessful response for key " ++ K ++ tail) ∧
      (∀ E' : GoMap V, E'.entries.Perm g.baseSuccessResponse.entries →
        ((Get env { g with baseSuccessResponse := E' } optional).err = none ↔
          (Get env g optional).err = none))) ∧
    (PostReads env p req optional bytes → 0 < p.baseSuccessResponse.len →
      ((Post env p req optional).err = none ↔
        ∀ K ev, (K, ev) ∈ p.baseSuccessResponse.entries →
          ∃ a, M.get? K = some a ∧ env.sprintV a = env.sprintV ev) ∧
      (∀ msg, (Post env p req optional).err = some msg →
        ∃ K ev, (K, ev) ∈ p.baseSuccessResponse.entries ∧
          (M.get? K = none ∨ ∃ a, M.get? K = some a ∧ env.sprintV a ≠ env.sprintV ev) ∧
          ∃ tail, msg = "unsuccessful response for key " ++ K ++ tail) ∧
      (∀ E' : GoMap V, E'.entries.Perm p.baseSuccessResponse.entries →
        ((Post env { p with baseSuccessResponse := E' } req optional).err = none ↔
          (Post env p req optional).err = none))) := by
  constructor
  · intro hr hlen
    have hG : (Get env g optional).err = checkExpected env M g.baseSuccessResponse.entries := by
      rw [Get_of_reads env g optional bytes hr,
        decodeAndValidate_checked env _ _ bytes r M hdec hmap hlen]
    obtain ⟨h1, h2⟩ := validation_facts env M _ _ hG
    refine ⟨h1, h2, ?_⟩
    intro E' hperm
    have hlen' : 0 < E'.len := by
      unfold GoMap.len at hlen ⊢
      rw [hperm.length_eq]
      exact hlen
    have hr' : GetReads env { g with baseSuccessResponse := E' } optional bytes := hr
    have hG' : (Get env { g with baseSuccessResponse := E' } optional).err =
        checkExpected env M E'.entries := by
      rw [Get_of_reads env _ optional bytes hr',
        decodeAndValidate_checked env _ _ bytes r M hdec hmap hlen']
    rw [hG, hG']
    exact checkExpected_perm env M _ _ hperm
  · intro hr hlen
    obtain ⟨reqBody, hP0⟩ := Post_of_reads env p req optional bytes hr
    have hP : (Post env p req optional).err =
        checkExpected env M p.baseSuccessResponse.entries := by
      rw [hP0, decodeAndValidate_checked env _ _ bytes r M hdec hmap hlen]
    obtain ⟨h1, h2⟩ := validation_facts env M _ _ hP
    refine ⟨h1, h2, ?_⟩
    intro E' hperm
    have hlen' : 0 < E'.len := by
      unfold GoMap.len at hlen ⊢
      rw [hperm.length_eq]
      exact hlen
    have hr' : PostReads env { p with baseSuccessResponse := E' } req optional bytes := hr
    obtain ⟨reqBody', hP0'⟩ := Post_of_reads env _ req optional bytes hr'
    have hP' : (Post env { p with baseSuccessResponse := E' } req optional).err =
        checkExpected env M E'.entries := by
      rw [hP0', decodeAndValidate_checked env _ _ bytes r M hdec hmap hlen']
    rw [hP, hP']
    exact checkExpected_perm env M _ _ hperm

theorem demo_get_reads (body : Bytes) (E : Option (GoMap Value)) :
    GetReads demoEnv (demoGetCaller body E) [] body :=
  ⟨rfl, ⟨.ok body⟩, rfl, rfl⟩

theorem demo_post_reads (body : Bytes) (E : Option (GoMap Value)) :
    PostReads demoEnv (demoPostCaller body E) demoPayload [] body :=
  ⟨"test", rfl, rfl, ⟨.ok body⟩, rfl, rfl⟩

/-- Witness of C2: the expectation `status = "success"` succeeds on the body
with `status` `success` and fails on the body with `status` `error`, for `Get`
and for `Post`. -/
theorem validation_succeeds_iff_all_match_witness :
    (Get demoEnv (demoGetCaller successBody (some expectStatus)) []).err = none ∧
    (Post demoEnv (demoPostCaller successBody (some expectStatus)) demoPayload []).err =
      none ∧
    (Get demoEnv (demoGetCaller errorBody (some expectStatus)) []).err ≠ none ∧
    (Post demoEnv (demoPostCaller errorBody (some expectStatus)) demoPayload []).err ≠
      none := by
  have h := validation_succeeds_iff_all_match demoEnv
    (demoGetCaller successBody (some expectStatus))
    (demoPostCaller successBody (some expectStatus)) demoPayload [] successBody
    ⟨[("test", .str "data"), ("status", .str "success")], by decide⟩
    ⟨[("test", .str "data"), ("status", .str "success")], by decide⟩ rfl rfl
  have h' := validation_succeeds_iff_all_match demoEnv
    (demoGetCaller errorBody (some expectStatus))
    (demoPostCaller errorBody (some expectStatus)) demoPayload [] errorBody
    ⟨[("test", .str "data"), ("status", .str "error")], by decide⟩
    ⟨[("test", .str "data"), ("status", .str "error")], by decide⟩ rfl rfl
  have hall : ∀ K ev, (K, ev) ∈ expectStatus.entries →
      ∃ a, (⟨[("test", .str "data"), ("status", .str "success")], by decide⟩ :
        GoMap Value).get? K = some a ∧ demoEnv.sprintV a = demoEnv.sprintV ev := by
    intro K ev hmem
    have heq : (K, ev) = ("status", Value.str "success") := by
      simpa [expectStatus] using hmem
    obtain ⟨rfl, rfl⟩ := Prod.mk.inj heq
    exact ⟨.str "success", by decide, rfl⟩
  have hnot : ¬ ∀ K ev, (K, ev) ∈ expectStatus.entries →
      ∃ a, (⟨[("test", .str "data"), ("status", .str "error")], by decide⟩ :
        GoMap Value).get? K = some a ∧ demoEnv.sprintV a = demoEnv.sprintV ev := by
    intro hyp
    obtain ⟨a, ha, hs⟩ := hyp "status" (.str "success") (by simp [expectStatus])
    have hget : (⟨[("test", .str "data"), ("status", .str "error")], by decide⟩ :
        GoMap Value).get? "status" = some (.str "error") := by decide
    rw [hget] at ha
    obtain rfl := Option.some.inj ha
    exact absurd hs (by decide)
  exact ⟨((h.1 (demo_get_reads _ _) (by decide)).1).2 hall,
    ((h.2 (demo_post_reads _ _) (by decide)).1).2 hall,
    fun hn => hnot (((h'.1 (demo_get_reads _ _) (by decide)).1).1 hn),
    fun hn => hnot (((h'.2 (demo_post_reads _ _) (by decide)).1).1 hn)⟩

/-! ### C8 -/

/-- C8: when the expected entries before `K` in visiting order all match and
`K` is present in the decoded map with a value `av` whose `%v` form differs
from that of the expected `ev`, the error of `Get` and of `Post` is
`unsuccessful response for key K: expected <ev>, got <av>`; and whenever the
call fails at a key that is present in the decoded map, that key is a key of
`E`, its value really differs in `%v` form, and the message has this shape. -/
theorem mismatch_error_message {Q R V : Type} (env : Env Q R V)
    (g : GetCaller V) (p : PostCaller V) (req : Q) (optional : List CallOption)
    (bytes : Bytes) (r : R) (M : GoMap V)
    (hdec : env.Unmarshal bytes env.zero = (r, none))
    (hmap : env.UnmarshalMap bytes = .ok M) :
    (GetReads env g optional bytes →
      (∀ pre post K ev av, g.baseSuccessResponse.entries = pre ++ (K, ev) :: post →
        (∀ K' ev', (K', ev') ∈ pre →
          ∃ a, M.get? K' = some a ∧ env.sprintV a = env.sprintV ev') →
        M.get? K = some av → env.sprintV av ≠ env.sprintV ev →
        (Get env g optional).err =
          some ("unsuccessful response for key " ++ K ++ ": expected " ++
            env.sprintV ev ++ ", got " ++ env.sprintV av)) ∧
      (∀ msg, 0 < g.baseSuccessResponse.len → (Get env g optional).err = some msg →
        ∃ K ev, (K, ev) ∈ g.baseSuccessResponse.entries ∧
          (M.get? K = none ∨ ∃ av, M.get? K = some av ∧
            env.sprintV av ≠ env.sprintV ev ∧
            msg = "unsuccessful response for key " ++ K ++ ": expected " ++
              env.sprintV ev ++ ", got " ++ env.sprintV av))) ∧
    (PostReads env p req optional bytes →
      (∀ pre post K ev av, p.baseSuccessResponse.entries = pre ++ (K, ev) :: post →
        (∀ K' ev', (K', ev') ∈ pre →
          ∃ a, M.get? K' = some a ∧ env.sprintV a = env.sprintV ev') →
        M.get? K = some av → env.sprintV av ≠ env.sprintV ev →
        (Post env p req optional).err =
          some ("unsuccessful response for key " ++ K ++ ": expected " ++
            env.sprintV ev ++ ", got " ++ env.sprintV av)) ∧
      (∀ msg, 0 < p.baseSuccessResponse.len → (Post env p req optional).err = some msg →
        ∃ K ev, (K, ev) ∈ p.baseSuccessResponse.entries ∧
          (M.get? K = none ∨ ∃ av, M.get? K = some av ∧
            env.sprintV av ≠ env.sprintV ev ∧
            msg = "unsuccessful response for key " ++ K ++ ": expected " ++
              env.sprintV ev ++ ", got " ++ env.sprintV av))) := by
  have key : ∀ (E : GoMap V) (err : Option String),
      (0 < E.len → err = checkExpected env M E.entries) →
      (∀ pre post K ev av, E.entries = pre ++ (K, ev) :: post →
        (∀ K' ev', (K', ev') ∈ pre →
          ∃ a, M.get? K' = some a ∧ env.sprintV a = env.sprintV ev') →
        M.get? K = some av → env.sprintV av ≠ env.sprintV ev →
        err = some ("unsuccessful response for key " ++ K ++ ": expected " ++
            env.sprintV ev ++ ", got " ++ env.sprintV av)) ∧
      (∀ msg, 0 < E.len → err = some msg →
        ∃ K ev, (K, ev) ∈ E.entries ∧
          (M.get? K = none ∨ ∃ av, M.get? K = some av ∧
            env.sprintV av ≠ env.sprintV ev ∧
            msg = "unsuccessful response for key " ++ K ++ ": expected " ++
              env.sprintV ev ++ ", got " ++ env.sprintV av)) := by
    intro E err herr
    constructor
    · intro pre post K ev av hE hpre hK hne
      have hlen : 0 < E.len := by
        unfold GoMap.len
        rw [hE]
        simp
      rw [herr hlen, hE, checkExpected_stops_at env M pre post K ev av hpre hK hne]
      rfl
    · intro msg hlen hmsg
      rw [herr hlen] at hmsg
      obtain ⟨pre, K, ev, post, hE, _, hm, hbad⟩ :=
        checkExpected_first_failure env M E.entries msg hmsg
      refine ⟨K, ev, by rw [hE]; simp, ?_⟩
      rcases hbad with hnone | ⟨av, hav, hne⟩
      · exact Or.inl hnone
      · refine Or.inr ⟨av, hav, hne, ?_⟩
        rw [hm, hav]
        rfl
  constructor
  · intro hr
    exact key g.baseSuccessResponse _ (fun hlen => by
      rw [Get_of_reads env g optional bytes hr,
        decodeAndValidate_checked env _ _ bytes r M hdec hmap hlen])
  · intro hr
    obtain ⟨reqBody, hP0⟩ := Post_of_reads env p req optional bytes hr
    exact key p.baseSuccessResponse _ (fun hlen => by
      rw [hP0, decodeAndValidate_checked env _ _ bytes r M hdec hmap hlen])

/-- Witness of C8: the expectation `title = "not match"` against a body whose
`title` is `foo` gives the error naming `title`, `not match` and `foo`. -/
theorem mismatch_error_message_witness :
    (Get demoEnv (demoGetCaller titleBody (some expectTitle)) []).err =
      some ("unsuccessful response for key " ++ "title" ++ ": expected " ++
        "not match" ++ ", got " ++ "foo") ∧
    (Post demoEnv (demoPostCaller titleBody (some expectTitle)) demoPayload []).err =
      some "unsuccessful response for key title: expected not match, got foo" := by
  have h := mismatch_error_message demoEnv
    (demoGetCaller titleBody (some expectTitle))
    (demoPostCaller titleBody (some expectTitle)) demoPayload [] titleBody
    ⟨[("title", .str "foo"), ("body", .str "bar")], by decide⟩
    ⟨[("title", .str "foo"), ("body", .str "bar")], by decide⟩ rfl rfl
  exact ⟨(h.1 (demo_get_reads _ _)).1 [] [] "title" (.str "not match") (.str "foo") rfl
      (fun _ _ hmem => by cases hmem) (by decide) (by decide),
    (h.2 (demo_post_reads _ _)).1 [] [] "title" (.str "not match") (.str "foo") rfl
      (fun _ _ hmem => by cases hmem) (by decide) (by decide)⟩

/-! ### C4 -/

/-- C4: a caller built without options, or with a nil `BaseSuccessResponse`,
has an empty expectation map; and with an empty expectation map, for every
body that is read, `Get` and `Post` succeed exactly when the body decodes into
the response type: the result is the decoded value, and the body is never
decoded into a map. -/
theorem empty_expectations_skip_validation {Q R V : Type} (env : Env Q R V)
    (g : GetCaller V) (p : PostCaller V) (req : Q) (optional : List CallOption)
    (bytes : Bytes) :
    (∀ (c : Request → Except String Response) (B T : String),
      (NewGetCaller c B T ([] : List (CallerOptions V))).baseSuccessResponse.len = 0 ∧
      (NewPostCaller c B T ([] : List (CallerOptions V))).baseSuccessResponse.len = 0 ∧
      ∀ (opt : CallerOptions V) (rest : List (CallerOptions V)),
        opt.BaseSuccessResponse = none →
        (NewGetCaller c B T (opt :: rest)).baseSuccessResponse.len = 0 ∧
        (NewPostCaller c B T (opt :: rest)).baseSuccessResponse.len = 0) ∧
    (g.baseSuccessResponse.len = 0 → GetReads env g optional bytes →
      ((Get env g optional).err = none ↔ (env.Unmarshal bytes env.zero).2 = none) ∧
      (Get env g optional).res = (env.Unmarshal bytes env.zero).1 ∧
      Call.unmarshalMap ∉ (Get env g optional).calls) ∧
    (p.baseSuccessResponse.len = 0 → PostReads env p req optional bytes →
      ((Post env p req optional).err = none ↔ (env.Unmarshal bytes env.zero).2 = none) ∧
      (Post env p req optional).res = (env.Unmarshal bytes env.zero).1 ∧
      Call.unmarshalMap ∉ (Post env p req optional).calls) := by
  have key : ∀ (E : GoMap V) (calls : List Call), E.len = 0 →
      Call.unmarshalMap ∉ calls →
      (((decodeAndValidate env E calls bytes).err = none ↔
          (env.Unmarshal bytes env.zero).2 = none) ∧
        (decodeAndValidate env E calls bytes).res = (env.Unmarshal bytes env.zero).1 ∧
        Call.unmarshalMap ∉ (decodeAndValidate env E calls bytes).calls) := by
    intro E calls hlen hcalls
    rcases hU : env.Unmarshal bytes env.zero with ⟨r, _ | e⟩
    · rw [decodeAndValidate_unchecked env E calls bytes r hU hlen]
      simpa using hcalls
    · rw [decodeAndValidate_undecodable env E calls bytes r e hU]
      simpa using hcalls
  refine ⟨?_, ?_, ?_⟩
  · intro c B T
    refine ⟨rfl, rfl, ?_⟩
    intro opt rest hnone
    simp [NewGetCaller, NewPostCaller, hnone, GoMap.len, GoMap.empty]
  · intro hlen hr
    rw [Get_of_reads env g optional bytes hr]
    exact key _ _ hlen (by simp)
  · intro hlen hr
    obtain ⟨reqBody, hP0⟩ := Post_of_reads env p req optional bytes hr
    rw [hP0]
    exact key _ _ hlen (by simp)

/-- Witness of C4: without expectations the body with `status` `error` yields
success, for `Get` and for `Post`. -/
theorem empty_expectations_skip_validation_witness :
    (Get demoEnv (demoGetCaller errorBody none) []).err = none ∧
    (Post demoEnv (demoPostCaller errorBody none) demoPayload []).err = none := by
  have h := empty_expectations_skip_validation demoEnv (demoGetCaller errorBody none)
    (demoPostCaller errorBody none) demoPayload [] errorBody
  exact ⟨((h.2.1 rfl (demo_get_reads _ _)).1).2 rfl,
    ((h.2.2 rfl (demo_post_reads _ _)).1).2 rfl⟩

/-! ### C5 -/

theorem get?_set_self {V : Type} (m : GoMap V) (k : String) (v : V) :
    (m.set k v).get? k = some v := by
  rw [get?_set]
  simp

/-- C5: the request `Post` hands to the transport carries under `Content-Type`
exactly the one value `application/json`, whatever the default headers and the
overrides are; and that request is handed over whenever the payload is
serialized and the request is created. -/
theorem post_content_type_is_json {Q R V : Type} (env : Env Q R V) (p : PostCaller V)
    (req : Q) (optional : List CallOption) :
    (∀ reqBody, Header_Values env (postRequest env p reqBody optional).Header
        "Content-Type" = some ["application/json"]) ∧
    (∀ r, Call.transport r ∈ (Post env p req optional).calls →
      Header_Values env r.Header "Content-Type" = some ["application/json"]) ∧
    (∀ reqBody, env.Marshal req = .ok reqBody →
      env.NewRequestWithContext "POST" (resolveURL p.baseURL p.endpoint optional) = none →
      Call.transport (postRequest env p reqBody optional) ∈
        (Post env p req optional).calls) := by
  have h1 : ∀ reqBody, Header_Values env (postRequest env p reqBody optional).Header
      "Content-Type" = some ["application/json"] := by
    intro reqBody
    simp only [Header_Values, postRequest, Header_Set]
    exact get?_set_self _ _ _
  refine ⟨h1, ?_, ?_⟩
  · intro r hr
    have hsent : ∃ reqBody, r = postRequest env p reqBody optional := by
      unfold Post at hr
      rcases hm : env.Marshal req with e | reqBody
      · simp [hm] at hr
      · rcases hn : env.NewRequestWithContext "POST"
            (resolveURL p.baseURL p.endpoint optional) with _ | e
        · rcases hd : p.httpClient (postRequest env p reqBody optional) with e | resp
          · simp [hm, hn, hd] at hr
            exact ⟨reqBody, hr⟩
          · simp only [hm, hn, hd, handleResponse] at hr
            rcases hb : resp.Body with e | bytes
            · simp [hb] at hr
              exact ⟨reqBody, hr⟩
            · simp only [hb, decodeAndValidate] at hr
              refine ⟨reqBody, ?_⟩
              split at hr
              · simpa using hr
              · split at hr
                · split at hr
                  · simpa using hr
                  · simpa using hr
                · simpa using hr
        · simp [hm, hn] at hr
    obtain ⟨reqBody, rfl⟩ := hsent
    exact h1 reqBody
  · intro reqBody hm hn
    unfold Post
    rcases hd : p.httpClient (postRequest env p reqBody optional) with e | resp
    · simp [hm, hn, hd]
    · simp only [hm, hn, hd, handleResponse]
      rcases hb : resp.Body with e | bytes
      · simp
      · simp only [decodeAndValidate]
        split
        · simp
        · split
          · split <;> simp
          · simp

/-- Witness of C5: defaults with `content-type: text/plain` and an override
`CONTENT-TYPE: text/html` leave the request of `Post` with the single header
`Content-Type: application/json`. -/
theorem post_content_type_is_json_witness :
    (postRequest demoEnv
        (NewPostCaller (demoClient successBody) "https://example.com" "test"
          [⟨some ⟨[("content-type", "text/plain")], by decide⟩, none⟩])
        "test" [⟨some ⟨[("CONTENT-TYPE", "text/html")], by decide⟩, none⟩]).Header.entries =
      [("Content-Type", ["application/json"])] ∧
    Header_Values demoEnv
      (postRequest demoEnv
        (NewPostCaller (demoClient successBody) "https://example.com" "test"
          [⟨some ⟨[("content-type", "text/plain")], by decide⟩, none⟩])
        "test" [⟨some ⟨[("CONTENT-TYPE", "text/html")], by decide⟩, none⟩]).Header
      "Content-Type" = some ["application/json"] :=
  ⟨by decide,
    (post_content_type_is_json demoEnv
      (NewPostCaller (demoClient successBody) "https://example.com" "test"
        [⟨some ⟨[("content-type", "text/plain")], by decide⟩, none⟩])
      demoPayload [⟨some ⟨[("CONTENT-TYPE", "text/html")], by decide⟩, none⟩]).2.1 _
      ((post_content_type_is_json demoEnv
        (NewPostCaller (demoClient successBody) "https://example.com" "test"
          [⟨some ⟨[("content-type", "text/plain")], by decide⟩, none⟩])
        demoPayload [⟨some ⟨[("CONTENT-TYPE", "text/html")], by decide⟩, none⟩]).2.2
        "test" rfl rfl)⟩

/-! ### C6, C7 -/

theorem decode_error_ne_validation_error {Q R V : Type} (env : Env Q R V)
    (e K : String) (ev av : V) :
    "unmarshal response error: " ++ e ≠ unsuccessfulMessage env K ev av := by
  intro h
  have h1 : ("unmarshal response error: " ++ e).data.get? 2 = some 'm' := rfl
  have h2 : (unsuccessfulMessage env K ev av).data.get? 2 = some 's' := by
    simp only [unsuccessfulMessage, String.append_assoc]
    rfl
  rw [h, h2] at h1
  exact absurd h1 (by decide)

/-- C6: `Post` and `Get` fail fast. Going through the stages in order
(serialize the payload, for `Post` only; create the request; transport; read
the body; decode into the response type; decode into the map, only with a
non-empty expectation map; check the expected entries), the error returned is
that of the first stage that fails and the collaborator calls end with that
stage. In particular a body that does not decode into the response type gives
`unmarshal response error`, whatever the expectation map is, never the
validation error, and the map decode is not called. -/
theorem calls_fail_fast {Q R V : Type} (env : Env Q R V) (g : GetCaller V)
    (p : PostCaller V) (req : Q) (optional : List CallOption) (e : String)
    (reqBody bytes : Bytes) (resp : Response) (r : R) (M : GoMap V) :
    ((env.Marshal req = .error e →
        (Post env p req optional).err = some ("marshal request error: " ++ e) ∧
        (Post env p req optional).calls = [.marshal]) ∧
      (env.Marshal req = .ok reqBody →
        (env.NewRequestWithContext "POST" (resolveURL p.baseURL p.endpoint optional) =
            some e →
          (Post env p req optional).err = some ("create request error: " ++ e) ∧
          (Post env p req optional).calls =
            [.marshal, .newRequest "POST" (resolveURL p.baseURL p.endpoint optional)]) ∧
        (env.NewRequestWithContext "POST" (resolveURL p.baseURL p.endpoint optional) =
            none →
          (p.httpClient (postRequest env p reqBody optional) = .error e →
            (Post env p req optional).err = some ("post request error: " ++ e) ∧
            (Post env p req optional).calls =
              [.marshal, .newRequest "POST" (resolveURL p.baseURL p.endpoint optional),
                .transport (postRequest env p reqBody optional)]) ∧
          (p.httpClient (postRequest env p reqBody optional) = .ok resp →
            (resp.Body = .error e →
              (Post env p req optional).err = some ("read response error: " ++ e) ∧
              (Post env p req optional).calls =
                [.marshal, .newRequest "POST" (resolveURL p.baseURL p.endpoint optional),
                  .transport (postRequest env p reqBody optional), .readAll]) ∧
            (resp.Body = .ok bytes →
              (env.Unmarshal bytes env.zero = (r, some e) →
                (Post env p req optional).err =
                  some ("unmarshal response error: " ++ e) ∧
                (∀ K ev av, (Post env p req optional).err ≠
                  some (unsuccessfulMessage env K ev av)) ∧
                (Post env p req optional).calls =
                  [.marshal, .newRequest "POST" (resolveURL p.baseURL p.endpoint optional),
                    .transport (postRequest env p reqBody optional), .readAll,
                    .unmarshal]) ∧
              (env.Unmarshal bytes env.zero = (r, none) →
                (p.baseSuccessResponse.len = 0 →
                  (Post env p req optional).err = none ∧
                  (Post env p req optional).calls =
                    [.marshal,
                      .newRequest "POST" (resolveURL p.baseURL p.endpoint optional),
                      .transport (postRequest env p reqBody optional), .readAll,
                      .unmarshal]) ∧
                (0 < p.baseSuccessResponse.len →
                  (env.UnmarshalMap bytes = .error e →
                    (Post env p req optional).err =
                      some ("unmarshal response map error: " ++ e)) ∧
                  (env.UnmarshalMap bytes = .ok M →
                    (Post env p req optional).err =
                      checkExpected env M p.baseSuccessResponse.entries) ∧
                  (Post env p req optional).calls =
                    [.marshal,
                      .newRequest "POST" (resolveURL p.baseURL p.endpoint optional),
                      .transport (postRequest env p reqBody optional), .readAll,
                      .unmarshal, .unmarshalMap]))))))) ∧
    ((env.NewRequestWithContext "GET" (resolveURL g.baseURL g.endpoint optional) =
          some e →
        (Get env g optional).err = some ("create request error: " ++ e) ∧
        (Get env g optional).calls =
          [.newRequest "GET" (resolveURL g.baseURL g.endpoint optional)]) ∧
      (env.NewRequestWithContext "GET" (resolveURL g.baseURL g.endpoint optional) =
          none →
        (g.httpClient (getRequest env g optional) = .error e →
          (Get env g optional).err = some ("get request error: " ++ e) ∧
          (Get env g optional).calls =
            [.newRequest "GET" (resolveURL g.baseURL g.endpoint optional),
              .transport (getRequest env g optional)]) ∧
        (g.httpClient (getRequest env g optional) = .ok resp →
          (resp.Body = .error e →
            (Get env g optional).err = some ("read response error: " ++ e) ∧
            (Get env g optional).calls =
              [.newRequest "GET" (resolveURL g.baseURL g.endpoint optional),
                .transport (getRequest env g optional), .readAll]) ∧
          (resp.Body = .ok bytes →
            (env.Unmarshal bytes env.zero = (r, some e) →
              (Get env g optional).err = some ("unmarshal response error: " ++ e) ∧
              (∀ K ev av, (Get env g optional).err ≠
                some (unsuccessfulMessage env K ev av)) ∧
              (Get env g optional).calls =
                [.newRequest "GET" (resolveURL g.baseURL g.endpoint optional),
                  .transport (getRequest env g optional), .readAll, .unmarshal]) ∧
            (env.Unmarshal bytes env.zero = (r, none) →
              (g.baseSuccessResponse.len = 0 →
                (Get env g optional).err = none ∧
                (Get env g optional).calls =
                  [.newRequest "GET" (resolveURL g.baseURL g.endpoint optional),
                    .transport (getRequest env g optional), .readAll, .unmarshal]) ∧
              (0 < g.baseSuccessResponse.len →
                (env.UnmarshalMap bytes = .error e →
                  (Get env g optional).err =
                    some ("unmarshal response map error: " ++ e)) ∧
                (env.UnmarshalMap bytes = .ok M →
                  (Get env g optional).err =
                    checkExpected env M g.baseSuccessResponse.entries) ∧
                (Get env g optional).calls =
                  [.newRequest "GET" (resolveURL g.baseURL g.endpoint optional),
                    .transport (getRequest env g optional), .readAll, .unmarshal,
                    .unmarshalMap])))))) := by
  have tail : ∀ (E : GoMap V) (calls : List Call),
      (env.Unmarshal bytes env.zero = (r, some e) →
        (decodeAndValidate env E calls bytes : Outcome R).err =
          some ("unmarshal response error: " ++ e) ∧
        (∀ K ev av, (decodeAndValidate env E calls bytes : Outcome R).err ≠
          some (unsuccessfulMessage env K ev av)) ∧
        (decodeAndValidate env E calls bytes : Outcome R).calls = calls ++ [.unmarshal]) ∧
      (env.Unmarshal bytes env.zero = (r, none) →
        (E.len = 0 →
          (decodeAndValidate env E calls bytes : Outcome R).err = none ∧
          (decodeAndValidate env E calls bytes : Outcome R).calls =
            calls ++ [.unmarshal]) ∧
        (0 < E.len →
          (env.UnmarshalMap bytes = .error e →
            (decodeAndValidate env E calls bytes : Outcome R).err =
              some ("unmarshal response map error: " ++ e)) ∧
          (env.UnmarshalMap bytes = .ok M →
            (decodeAndValidate env E calls bytes : Outcome R).err =
              checkExpected env M E.entries) ∧
          (decodeAndValidate env E calls bytes : Outcome R).calls =
            calls ++ [.unmarshal, .unmarshalMap])) := by
    intro E calls
    constructor
    · intro hU
      rw [decodeAndValidate_undecodable env E calls bytes r e hU]
      refine ⟨rfl, ?_, rfl⟩
      intro K ev av hbad
      exact decode_error_ne_validation_error env e K ev av (Option.some.inj hbad)
    · intro hU
      constructor
      · intro hlen
        rw [decodeAndValidate_unchecked env E calls bytes r hU hlen]
        exact ⟨rfl, rfl⟩
      · intro hlen
        refine ⟨?_, ?_, ?_⟩
        · intro hm
          simp [decodeAndValidate, hU, hlen, hm]
        · intro hm
          rw [decodeAndValidate_checked env E calls bytes r M hU hm hlen]
        · rcases hm : env.UnmarshalMap bytes with e' | M'
          · simp [decodeAndValidate, hU, hlen, hm]
          · rw [decodeAndValidate_checked env E calls bytes r M' hU hm hlen]
  constructor
  · constructor
    · intro hm
      simp [Post, hm]
    · intro hm
      constructor
      · intro hn
        simp [Post, hm, hn]
      · intro hn
        constructor
        · intro hd
          simp [Post, hm, hn, hd]
        · intro hd
          constructor
          · intro hb
            simp [Post, hm, hn, hd, handleResponse, hb]
          · intro hb
            have hP : Post env p req optional =
                decodeAndValidate env p.baseSuccessResponse
                  ([.marshal,
                    .newRequest "POST" (resolveURL p.baseURL p.endpoint optional),
                    .transport (postRequest env p reqBody optional)] ++ [.readAll])
                  bytes := by
              simp only [Post, hm, hn, hd, handleResponse, hb]
            rw [hP]
            exact tail _ _
  · constructor
    · intro hn
      simp [Get, hn]
    · intro hn
      constructor
      · intro hd
        simp [Get, hn, hd]
      · intro hd
        constructor
        · intro hb
          simp [Get, hn, hd, handleResponse, hb]
        · intro hb
          have hG : Get env g optional =
              decodeAndValidate env g.baseSuccessResponse
                ([.newRequest "GET" (resolveURL g.baseURL g.endpoint optional),
                  .transport (getRequest env g optional)] ++ [.readAll]) bytes := by
            simp only [Get, hn, hd, handleResponse, hb]
          rw [hG]
          exact tail _ _

/-- Witness of C6: with the expectation `status = "success"` configured, the
body `{invalid json}` gives the decode error for `Post` and for `Get`. -/
theorem calls_fail_fast_witness :
    (Post demoEnv (demoPostCaller invalidBody (some expectStatus)) demoPayload []).err =
      some ("unmarshal response error: " ++ "invalid character") ∧
    (Get demoEnv (demoGetCaller invalidBody (some expectStatus)) []).err =
      some ("unmarshal response error: " ++ "invalid character") := by
  have h := calls_fail_fast demoEnv (demoGetCaller invalidBody (some expectStatus))
    (demoPostCaller invalidBody (some expectStatus)) demoPayload [] "invalid character"
    "test" invalidBody ⟨.ok invalidBody⟩ GoMap.empty GoMap.empty
  exact ⟨((((((h.1.2 rfl).2 rfl).2 rfl).2 rfl).1) rfl).1,
    (((((h.2.2 rfl).2 rfl).2 rfl).1) rfl).1⟩

/-- C7: when the serialization of the payload fails, `Post` returns the error
`marshal request error: ...` and its only collaborator call is the
serialization: no request is created and the transport is not invoked. -/
theorem marshal_failure_sends_nothing {Q R V : Type} (env : Env Q R V) (p : PostCaller V)
    (req : Q) (optional : List CallOption) (e : String)
    (hm : env.Marshal req = .error e) :
    (Post env p req optional).err = some ("marshal request error: " ++ e) ∧
    (Post env p req optional).calls = [.marshal] ∧
    (∀ r, Call.transport r ∉ (Post env p req optional).calls) ∧
    (∀ m u, Call.newRequest m u ∉ (Post env p req optional).calls) := by
  have hP : Post env p req optional =
      ⟨env.zero, some ("marshal request error: " ++ e), [.marshal]⟩ := by
    simp only [Post, hm]
  rw [hP]
  simp

/-- Witness of C7: a payload of type `chan int`. -/
theorem marshal_failure_sends_nothing_witness :
    (Post demoEnv (demoPostCaller successBody none) Payload.channel []).err =
      some ("marshal request error: " ++ "json: unsupported type: chan int") ∧
    (Post demoEnv (demoPostCaller successBody none) Payload.channel []).calls =
      [.marshal] :=
  ⟨(marshal_failure_sends_nothing demoEnv (demoPostCaller successBody none)
      Payload.channel [] "json: unsupported type: chan int" rfl).1,
    (marshal_failure_sends_nothing demoEnv (demoPostCaller successBody none)
      Payload.channel [] "json: unsupported type: chan int" rfl).2.1⟩

/-! ### C10 -/

theorem lookup_perm {V : Type} (a : String) (l l' : List (String × V)) (h : l.Perm l') :
    (l.map Prod.fst).Nodup → l.lookup a = l'.lookup a := by
  induction h with
  | nil => intro _; rfl
  | cons x _ ih =>
    intro hn
    obtain ⟨k, v⟩ := x
    rw [List.map_cons, List.nodup_cons] at hn
    rw [lookup_cons_ite, lookup_cons_ite, ih hn.2]
  | swap x y l =>
    intro hn
    obtain ⟨kx, vx⟩ := x
    obtain ⟨ky, vy⟩ := y
    have hne : ky ≠ kx := by
      intro heq
      simp [heq] at hn
    simp only [lookup_cons_ite]
    by_cases h1 : a = ky
    · have h2 : ¬ a = kx := fun h2 => hne (h1.symm.trans h2)
      simp [h1, hne]
    · simp [h1]
  | trans h1 _ ih1 ih2 =>
    intro hn
    rw [ih1 hn, ih2 ((h1.map Prod.fst).nodup_iff.1 hn)]

theorem get?_perm {V : Type} (m m' : GoMap V) (h : m.entries.Perm m'.entries)
    (a : String) : m.get? a = m'.get? a :=
  lookup_perm a m.entries m'.entries h m.nodup

theorem prefix_of_prefix_across_slash (old X T : List Char) (hs : '/' ∉ old)
    (h : old <+: X ++ '/' :: T) : old <+: X := by
  by_contra hX
  exact not_prefix_across_slash old X T hs hX h

theorem replaceScan_zero_cons (old new : List Char) (c : Char) (cs : List Char) :
    replaceScan old new 0 (c :: cs) =
      if old.isPrefixOf (c :: cs) then new ++ replaceScan old new (old.length - 1) cs
      else c :: replaceScan old new 0 cs := rfl

theorem replaceScan_succ_cons (old new : List Char) (m : Nat) (c : Char)
    (cs : List Char) : replaceScan old new (m + 1) (c :: cs) = replaceScan old new m cs :=
  rfl

theorem replaceScan_slash (old new : List Char) (hne : old ≠ []) (hs : '/' ∉ old)
    (X T : List Char) (n : Nat) (hn : n ≤ X.length) :
    replaceScan old new n (X ++ '/' :: T) =
      replaceScan old new n X ++ '/' :: replaceScan old new 0 T := by
  induction X generalizing n with
  | nil =>
    have hn0 : n = 0 := Nat.le_zero.1 hn
    subst hn0
    have hno : ¬ old <+: [] ++ '/' :: T :=
      not_prefix_across_slash old [] T hs (by simpa using hne)
    have hb : old.isPrefixOf ('/' :: T) = false := by
      rw [Bool.eq_false_iff]
      intro hp
      exact hno (by simpa using hp)
    simp [replaceScan, hb]
  | cons c X' ih =>
    cases n with
    | succ m =>
      have hm : m ≤ X'.length := by simpa using hn
      rw [List.cons_append, replaceScan_succ_cons, replaceScan_succ_cons]
      exact ih m hm
    | zero =>
      by_cases hp : old <+: c :: X'
      · have hb1 : old.isPrefixOf (c :: X') = true := by simpa using hp
        have hb2 : old.isPrefixOf (c :: (X' ++ '/' :: T)) = true := by
          have : old <+: c :: (X' ++ '/' :: T) := by
            rw [← List.cons_append]
            exact hp.trans (List.prefix_append _ _)
          simpa using this
        have hlen : old.length - 1 ≤ X'.length := by
          have := hp.length_le
          simp at this
          omega
        rw [List.cons_append, replaceScan_zero_cons, replaceScan_zero_cons, hb1, hb2]
        simp only [if_true]
        rw [ih (old.length - 1) hlen, List.append_assoc]
      · have hb1 : old.isPrefixOf (c :: X') = false := by
          rw [Bool.eq_false_iff]
          intro h
          exact hp (by simpa using h)
        have hb2 : old.isPrefixOf (c :: (X' ++ '/' :: T)) = false := by
          rw [Bool.eq_false_iff]
          intro h
          have h2 : old <+: (c :: X') ++ '/' :: T := by simpa using h
          exact hp (prefix_of_prefix_across_slash old (c :: X') T hs h2)
        rw [List.cons_append, replaceScan_zero_cons, replaceScan_zero_cons, hb1, hb2]
        simp only [Bool.false_eq_true, if_false]
        rw [ih 0 (Nat.zero_le _)]
        rfl

theorem replaceScan_no_occurrence (old new : List Char) (s : List Char)
    (h : ¬ old <:+: s) : replaceScan old new 0 s = s := by
  induction s with
  | nil => rfl
  | cons c cs ih =>
    have hb : old.isPrefixOf (c :: cs) = false := by
      rw [Bool.eq_false_iff]
      intro hp
      have hp' : old <+: c :: cs := by simpa using hp
      exact h hp'.isInfix
    have hcs : ¬ old <:+: cs := fun hi => h (List.infix_cons hi)
    simp [replaceScan, hb, ih hcs]

theorem replaceScan_self (old new : List Char) (hne : old ≠ []) :
    replaceScan old new 0 old = new := by
  cases old with
  | nil => exact absurd rfl hne
  | cons c cs =>
    have hb : (c :: cs).isPrefixOf (c :: cs) = true := by simp
    simp only [replaceScan, hb, if_true]
    rw [replaceScan_skip]
    simp [replaceScan]

theorem joinSlash_cons_cons (s t : String) (rest : List String) :
    joinSlash (s :: t :: rest) = s ++ "/" ++ joinSlash (t :: rest) := rfl

theorem data_append_slash (s u : String) : (s ++ "/" ++ u).data = s.data ++ '/' :: u.data := by
  simp [String.data_append]

theorem strings_Replace_joinSlash (old new : String) (hne : old.data ≠ [])
    (hs : '/' ∉ old.data) (segs : List String) :
    strings_Replace (joinSlash segs) old new =
      joinSlash (segs.map (fun s => strings_Replace s old new)) := by
  induction segs with
  | nil =>
    apply String.ext
    simp [strings_Replace, hne, joinSlash, replaceScan]
  | cons s rest ih =>
    cases rest with
    | nil => rfl
    | cons t rest' =>
      have ih' : joinSlash (strings_Replace t old new ::
          List.map (fun s => strings_Replace s old new) rest') =
          strings_Replace (joinSlash (t :: rest')) old new := by
        rw [ih]
        rfl
      rw [joinSlash_cons_cons, List.map_cons, List.map_cons, joinSlash_cons_cons, ih']
      apply String.ext
      rw [data_append_slash]
      simp only [strings_Replace, if_neg hne, data_append_slash]
      exact replaceScan_slash old.data new.data hne hs s.data _ 0 (Nat.zero_le _)

theorem strings_Replace_segment (s k v : String)
    (h : s = ":" ++ k ∨ ¬ (":" ++ k).data <:+: s.data) :
    strings_Replace s (":" ++ k) v = if s = ":" ++ k then v else s := by
  have hne : (":" ++ k).data ≠ [] := by simp [placeholder_data]
  by_cases hs : s = ":" ++ k
  · subst hs
    rw [if_pos rfl]
    apply String.ext
    simp only [strings_Replace, if_neg hne]
    exact replaceScan_self _ _ hne
  · rw [if_neg hs]
    rcases h with h | h
    · exact absurd h hs
    · apply String.ext
      simp only [strings_Replace, if_neg hne]
      exact replaceScan_no_occurrence _ _ _ h

theorem mem_of_lookup_eq_some {V : Type} (a : String) (b : V) (l : List (String × V))
    (h : l.lookup a = some b) : (a, b) ∈ l := by
  induction l with
  | nil => simp [List.lookup] at h
  | cons p rest ih =>
    obtain ⟨k, v⟩ := p
    rw [lookup_cons_ite] at h
    by_cases hk : a = k
    · rw [if_pos hk] at h
      obtain rfl := Option.some.inj h
      rw [hk]
      exact List.mem_cons_self _ _
    · rw [if_neg hk] at h
      exact List.mem_cons_of_mem _ (ih h)

theorem fillSegment_eq {P : List (String × String)} {s : String} {k : List Char}
    (hs : s.data = ':' :: k) :
    fillSegment P s = match P.lookup ⟨k⟩ with
      | some v => v
      | none => s := by
  unfold fillSegment
  rw [hs]
  rfl

theorem fillSegment_of_ne {P : List (String × String)} {s : String}
    (hs : ∀ k, s.data ≠ ':' :: k) : fillSegment P s = s := by
  unfold fillSegment
  split
  · rename_i k hk
    exact absurd hk (hs k)
  · rfl

theorem fillSegment_nil (s : String) : fillSegment [] s = s := by
  unfold fillSegment
  split <;> rfl

theorem fillSegment_value (rest : List (String × String)) (v : String)
    (hv : ∀ kv' ∈ rest, ¬ (":" ++ kv'.1).data <:+: v.data) : fillSegment rest v = v := by
  by_cases hs : ∃ k, v.data = ':' :: k
  · obtain ⟨k, hk⟩ := hs
    rw [fillSegment_eq hk]
    cases hl : rest.lookup ⟨k⟩ with
    | none => rfl
    | some v' =>
      have hmem := mem_of_lookup_eq_some _ _ _ hl
      have hbad := hv _ hmem
      exact absurd (by rw [placeholder_data, hk]) hbad
  · exact fillSegment_of_ne (fun k hk => hs ⟨k, hk⟩)

theorem fillSegment_cons_placeholder (k v : String) (rest : List (String × String)) :
    fillSegment ((k, v) :: rest) (":" ++ k) = v := by
  rw [fillSegment_eq (placeholder_data k), lookup_cons_ite]
  simp

theorem fillSegment_cons_other (k v s : String) (rest : List (String × String))
    (hs : s ≠ ":" ++ k) : fillSegment ((k, v) :: rest) s = fillSegment rest s := by
  by_cases h : ∃ k', s.data = ':' :: k'
  · obtain ⟨k', hk'⟩ := h
    rw [fillSegment_eq hk', fillSegment_eq hk', lookup_cons_ite]
    have hne : ¬ (⟨k'⟩ : String) = k := by
      intro heq
      apply hs
      apply String.ext
      rw [placeholder_data, hk', ← heq]
    rw [if_neg hne]
  · rw [fillSegment_of_ne (fun k' hk' => h ⟨k', hk'⟩),
      fillSegment_of_ne (fun k' hk' => h ⟨k', hk'⟩)]

theorem substitute_segments (P : List (String × String)) (segs : List String)
    (h : PlaceholdersAreSegments P segs) :
    substitute P (joinSlash segs) = joinSlash (segs.map (fillSegment P)) := by
  induction P generalizing segs with
  | nil =>
    have hmap : segs.map (fillSegment []) = segs := by
      conv_rhs => rw [← List.map_id segs]
      exact List.map_congr_left (fun s _ => fillSegment_nil s)
    rw [hmap]
    rfl
  | cons kv rest ih =>
    obtain ⟨k, v⟩ := kv
    obtain ⟨h1, h2, h3⟩ := h
    have hk : '/' ∉ k.data := h1 (k, v) (List.mem_cons_self _ _)
    have hne : (":" ++ k).data ≠ [] := by simp [placeholder_data]
    have hs : '/' ∉ (":" ++ k).data := by
      rw [placeholder_data]
      simp only [List.mem_cons, not_or]
      exact ⟨by decide, hk⟩
    have hstep : substitute ((k, v) :: rest) (joinSlash segs) =
        substitute rest (strings_Replace (joinSlash segs) (":" ++ k) v) := rfl
    have hmap : segs.map (fun s => strings_Replace s (":" ++ k) v) =
        segs.map (fun s => if s = ":" ++ k then v else s) :=
      List.map_congr_left (fun s hmem =>
        strings_Replace_segment s k v (h2 (k, v) (List.mem_cons_self _ _) s hmem))
    have hcond : PlaceholdersAreSegments rest
        (segs.map (fun s => if s = ":" ++ k then v else s)) := by
      refine ⟨fun kv' hkv' => h1 kv' (List.mem_cons_of_mem _ hkv'), ?_,
        fun kv1 hkv1 kv2 hkv2 => h3 kv1 (List.mem_cons_of_mem _ hkv1) kv2
          (List.mem_cons_of_mem _ hkv2)⟩
      intro kv' hkv' s' hs'
      obtain ⟨s, hsmem, rfl⟩ := List.mem_map.1 hs'
      by_cases hsk : s = ":" ++ k
      · rw [if_pos hsk]
        exact Or.inr (h3 (k, v) (List.mem_cons_self _ _) kv' (List.mem_cons_of_mem _ hkv'))
      · rw [if_neg hsk]
        exact h2 kv' (List.mem_cons_of_mem _ hkv') s hsmem
    rw [hstep, strings_Replace_joinSlash _ _ hne hs, hmap, ih _ hcond, List.map_map]
    congr 1
    apply List.map_congr_left
    intro s _
    simp only [Function.comp]
    by_cases hsk : s = ":" ++ k
    · rw [if_pos hsk, hsk, fillSegment_cons_placeholder]
      exact fillSegment_value rest v (fun kv' hkv' =>
        h3 (k, v) (List.mem_cons_self _ _) kv' (List.mem_cons_of_mem _ hkv'))
    · rw [if_neg hsk, fillSegment_cons_other k v s rest hsk]

theorem fillSegment_perm (P P' : GoMap String) (hP : P.entries.Perm P'.entries)
    (s : String) : fillSegment P.entries s = fillSegment P'.entries s := by
  unfold fillSegment
  split
  · rw [lookup_perm _ _ _ hP P.nodup]
  · rfl

theorem placeholdersAreSegments_perm (P P' : List (String × String)) (hP : P.Perm P')
    (segs : List String) (h : PlaceholdersAreSegments P segs) :
    PlaceholdersAreSegments P' segs :=
  ⟨fun kv hkv => h.1 kv (hP.mem_iff.2 hkv),
    fun kv hkv => h.2.1 kv (hP.mem_iff.2 hkv),
    fun kv hkv kv' hkv' => h.2.2 kv (hP.mem_iff.2 hkv) kv' (hP.mem_iff.2 hkv')⟩

/-- C10 as amended: the merged headers are a function of the default headers
and the overrides as maps, whatever the order in which their entries are
visited. The resolved URL does not depend on the order in which the path
parameters are visited when, with the text `B + "/" + T` written as segments
joined by `/`, no key contains `/`, a placeholder `:key` that occurs in a
segment is that whole segment, and no value contains a placeholder; it is then
the segments with every segment `:key` replaced by the value of `key`. -/
theorem request_building_deterministic (B T : String) (D D' : GoMap String)
    (optional optional' : List CallOption) (segs : List String)
    (hD : D.entries.Perm D'.entries)
    (hO : (headerOverrides optional).entries.Perm (headerOverrides optional').entries)
    (hP : (pathParamsOf optional).entries.Perm (pathParamsOf optional').entries) :
    (∀ k, (mergeHeaders D optional).get? k = (mergeHeaders D' optional').get? k) ∧
    (B ++ "/" ++ T = joinSlash segs →
      PlaceholdersAreSegments (pathParamsOf optional).entries segs →
      resolveURL B T optional =
        joinSlash (segs.map (fillSegment (pathParamsOf optional).entries)) ∧
      resolveURL B T optional' = resolveURL B T optional) := by
  constructor
  · intro k
    rw [get?_mergeHeaders, get?_mergeHeaders, get?_perm _ _ hO k, get?_perm _ _ hD k]
  · intro hU hcond
    have h1 : resolveURL B T optional =
        joinSlash (segs.map (fillSegment (pathParamsOf optional).entries)) := by
      simp only [resolveURL]
      rw [hU]
      exact substitute_segments _ segs hcond
    have h2 : resolveURL B T optional' =
        joinSlash (segs.map (fillSegment (pathParamsOf optional').entries)) := by
      simp only [resolveURL]
      rw [hU]
      exact substitute_segments _ segs (placeholdersAreSegments_perm _ _ hP segs hcond)
    refine ⟨h1, ?_⟩
    rw [h1, h2]
    congr 1
    exact List.map_congr_left (fun s _ => (fillSegment_perm _ _ hP s).symm)

/-- Witness of C10 as amended: the default headers `Authorization` and
`Custom-Header` and the path parameters `uid -> 7`, `pid -> 123`, each visited
in either order, on `https://example.com` and `users/:uid/posts/:pid`: the
merged headers agree and both orders resolve to
`https://example.com/users/7/posts/123`. -/
theorem request_building_deterministic_witness :
    (∀ k, (mergeHeaders
        ⟨[("Authorization", "Bearer default_token_here"),
          ("Custom-Header", "default_value")], by decide⟩
        [⟨some ⟨[("Custom-Header", "custom_value")], by decide⟩,
          some ⟨[("uid", "7"), ("pid", "123")], by decide⟩⟩]).get? k =
      (mergeHeaders
        ⟨[("Custom-Header", "default_value"),
          ("Authorization", "Bearer default_token_here")], by decide⟩
        [⟨some ⟨[("Custom-Header", "custom_value")], by decide⟩,
          some ⟨[("pid", "123"), ("uid", "7")], by decide⟩⟩]).get? k) ∧
    resolveURL "https://example.com" "users/:uid/posts/:pid"
        [⟨some ⟨[("Custom-Header", "custom_value")], by decide⟩,
          some ⟨[("uid", "7"), ("pid", "123")], by decide⟩⟩] =
      "https://example.com/users/7/posts/123" ∧
    resolveURL "https://example.com" "users/:uid/posts/:pid"
        [⟨some ⟨[("Custom-Header", "custom_value")], by decide⟩,
          some ⟨[("pid", "123"), ("uid", "7")], by decide⟩⟩] =
      resolveURL "https://example.com" "users/:uid/posts/:pid"
        [⟨some ⟨[("Custom-Header", "custom_value")], by decide⟩,
          some ⟨[("uid", "7"), ("pid", "123")], by decide⟩⟩] := by
  have h := request_building_deterministic "https://example.com" "users/:uid/posts/:pid"
    ⟨[("Authorization", "Bearer default_token_here"),
      ("Custom-Header", "default_value")], by decide⟩
    ⟨[("Custom-Header", "default_value"),
      ("Authorization", "Bearer default_token_here")], by decide⟩
    [⟨some ⟨[("Custom-Header", "custom_value")], by decide⟩,
      some ⟨[("uid", "7"), ("pid", "123")], by decide⟩⟩]
    [⟨some ⟨[("Custom-Header", "custom_value")], by decide⟩,
      some ⟨[("pid", "123"), ("uid", "7")], by decide⟩⟩]
    ["https:", "", "example.com", "users", ":uid", "posts", ":pid"]
    (List.Perm.swap _ _ _) (List.Perm.refl _) (List.Perm.swap _ _ _)
  have hU : "https://example.com" ++ "/" ++ "users/:uid/posts/:pid" =
      joinSlash ["https:", "", "example.com", "users", ":uid", "posts", ":pid"] := by
    decide
  have hcond : PlaceholdersAreSegments [("uid", "7"), ("pid", "123")]
      ["https:", "", "example.com", "users", ":uid", "posts", ":pid"] := by
    unfold PlaceholdersAreSegments
    decide
  obtain ⟨h1, h2⟩ := h.2 hU hcond
  refine ⟨h.1, ?_, h2⟩
  rw [h1]
  decide

/-! ### C12 -/

theorem checkExpected_stops_at_missing {Q R V : Type} (env : Env Q R V) (M : GoMap V)
    (pre post : List (String × V)) (K : String) (ev : V)
    (hpre : ∀ K' ev', (K', ev') ∈ pre →
      ∃ a, M.get? K' = some a ∧ env.sprintV a = env.sprintV ev')
    (hK : M.get? K = none) :
    checkExpected env M (pre ++ (K, ev) :: post) =
      some (unsuccessfulMessage env K ev env.nilValue) := by
  induction pre with
  | nil => rw [List.nil_append, checkExpected_cons, hK]
  | cons q rest ih =>
    obtain ⟨K1, ev1⟩ := q
    obtain ⟨a, ha, hs⟩ := hpre K1 ev1 (List.mem_cons_self _ _)
    rw [List.cons_append, checkExpected_cons, ha]
    simp only [hs, if_true]
    exact ih (fun K' ev' hmem => hpre K' ev' (List.mem_cons_of_mem _ hmem))

/-- Counterexample to C12: with the expectation `status = "success"` and a body
without `status`, the error of `Get` ends in `got <nil>`, not in
`got missing`; and with the expectations `title = "not match"`, then
`status = "success"`, on the same body (where `status` is absent and `title`
is `foo`), the error names `title`, not the absent key `status`. -/
theorem missing_key_reported_as_nil :
    (Get demoEnv (demoGetCaller titleBody (some expectStatus)) []).err =
      some "unsuccessful response for key status: expected success, got <nil>" ∧
    (Get demoEnv (demoGetCaller titleBody (some expectStatus)) []).err ≠
      some "unsuccessful response for key status: expected success, got missing" ∧
    (Get demoEnv (demoGetCaller titleBody
        (some ⟨[("title", .str "not match"), ("status", .str "success")], by decide⟩))
        []).err =
      some "unsuccessful response for key title: expected not match, got foo" := by
  decide

/-- C12 as amended: when an expected key `K` of `baseSuccessResponse` is absent
from the decoded response map, `Get` and `Post` fail; and when the entries
visited before `K` all match, the error is
`unsuccessful response for key K: expected <ev>, got <nil value>`, with the
actual value printed as the `%v` form of the nil `interface{}` (the text
`<nil>` in Go). -/
theorem missing_key_error_message {Q R V : Type} (env : Env Q R V)
    (g : GetCaller V) (p : PostCaller V) (req : Q) (optional : List CallOption)
    (bytes : Bytes) (r : R) (M : GoMap V)
    (hdec : env.Unmarshal bytes env.zero = (r, none))
    (hmap : env.UnmarshalMap bytes = .ok M) :
    (GetReads env g optional bytes →
      (∀ K ev, (K, ev) ∈ g.baseSuccessResponse.entries → M.get? K = none →
        (Get env g optional).err ≠ none) ∧
      (∀ pre post K ev, g.baseSuccessResponse.entries = pre ++ (K, ev) :: post →
        (∀ K' ev', (K', ev') ∈ pre →
          ∃ a, M.get? K' = some a ∧ env.sprintV a = env.sprintV ev') →
        M.get? K = none →
        (Get env g optional).err =
          some ("unsuccessful response for key " ++ K ++ ": expected " ++
            env.sprintV ev ++ ", got " ++ env.sprintV env.nilValue))) ∧
    (PostReads env p req optional bytes →
      (∀ K ev, (K, ev) ∈ p.baseSuccessResponse.entries → M.get? K = none →
        (Post env p req optional).err ≠ none) ∧
      (∀ pre post K ev, p.baseSuccessResponse.entries = pre ++ (K, ev) :: post →
        (∀ K' ev', (K', ev') ∈ pre →
          ∃ a, M.get? K' = some a ∧ env.sprintV a = env.sprintV ev') →
        M.get? K = none →
        (Post env p req optional).err =
          some ("unsuccessful response for key " ++ K ++ ": expected " ++
            env.sprintV ev ++ ", got " ++ env.sprintV env.nilValue))) := by
  have key : ∀ (E : GoMap V) (err : Option String),
      (0 < E.len → err = checkExpected env M E.entries) →
      (∀ K ev, (K, ev) ∈ E.entries → M.get? K = none → err ≠ none) ∧
      (∀ pre post K ev, E.entries = pre ++ (K, ev) :: post →
        (∀ K' ev', (K', ev') ∈ pre →
          ∃ a, M.get? K' = some a ∧ env.sprintV a = env.sprintV ev') →
        M.get? K = none →
        err = some ("unsuccessful response for key " ++ K ++ ": expected " ++
            env.sprintV ev ++ ", got " ++ env.sprintV env.nilValue)) := by
    intro E err herr
    constructor
    · intro K ev hmem hK hnone
      have hlen : 0 < E.len := List.length_pos_of_mem hmem
      rw [herr hlen, checkExpected_eq_none_iff] at hnone
      obtain ⟨a, ha, _⟩ := hnone K ev hmem
      rw [hK] at ha
      exact Option.noConfusion ha
    · intro pre post K ev hE hpre hK
      have hlen : 0 < E.len := by
        unfold GoMap.len
        rw [hE]
        simp
      rw [herr hlen, hE, checkExpected_stops_at_missing env M pre post K ev hpre hK]
      rfl
  constructor
  · intro hr
    exact key g.baseSuccessResponse _ (fun hlen => by
      rw [Get_of_reads env g optional bytes hr,
        decodeAndValidate_checked env _ _ bytes r M hdec hmap hlen])
  · intro hr
    obtain ⟨reqBody, hP0⟩ := Post_of_reads env p req optional bytes hr
    exact key p.baseSuccessResponse _ (fun hlen => by
      rw [hP0, decodeAndValidate_checked env _ _ bytes r M hdec hmap hlen])

/-- Witness of C12 as amended: the expectation `status = "success"` against a
body without `status`, for `Get` and for `Post`. -/
theorem missing_key_error_message_witness :
    (Get demoEnv (demoGetCaller titleBody (some expectStatus)) []).err =
      some ("unsuccessful response for key " ++ "status" ++ ": expected " ++
        "success" ++ ", got " ++ "<nil>") ∧
    (Post demoEnv (demoPostCaller titleBody (some expectStatus)) demoPayload []).err =
      some "unsuccessful response for key status: expected success, got <nil>" := by
  have h := missing_key_error_message demoEnv
    (demoGetCaller titleBody (some expectStatus))
    (demoPostCaller titleBody (some expectStatus)) demoPayload [] titleBody
    ⟨[("title", .str "foo"), ("body", .str "bar")], by decide⟩
    ⟨[("title", .str "foo"), ("body", .str "bar")], by decide⟩ rfl rfl
  exact ⟨(h.1 (demo_get_reads _ _)).2 [] [] "status" (.str "success") rfl
      (fun _ _ hmem => by cases hmem) (by decide),
    (h.2 (demo_post_reads _ _)).2 [] [] "status" (.str "success") rfl
      (fun _ _ hmem => by cases hmem) (by decide)⟩

/-! ### C13 -/

theorem formatFloat64_eq_formatInt (n : Int) (hn : n.natAbs < 1000000) :
    formatFloat64 n = formatInt n := by
  by_cases h0 : n = 0
  · subst h0
    decide
  · have hlen : (Nat.toDigits 10 n.natAbs).length ≤ 6 :=
      Nat.toDigitsCore_length 10 (by decide) (n.natAbs + 1) n.natAbs 6
        (by simpa using hn) (by decide)
    have hexp : ¬ (Nat.toDigits 10 n.natAbs).length - 1 ≥ 6 := by omega
    simp only [formatFloat64, formatInt, h0, if_false, hexp]

/-- Counterexample to C13: with the expectation `userId = 1000000` given as an
`int` and a body whose `userId` is the JSON number `1000000`, `Get` fails: the
decoded `float64` prints as `1e+06`, the expected `int` as `1000000`. -/
theorem large_integer_expectation_fails :
    (Get demoEnv
        (demoGetCaller largeUserBody (some ⟨[("userId", .int 1000000)], by decide⟩))
        []).err =
      some "unsuccessful response for key userId: expected 1000000, got 1e+06" := by
  decide

/-- C13 as amended: for every integer `n` with `|n| < 1000000`, a caller
configured with `baseSuccessResponse` `{K: n}` (`n` an `int`) succeeds against
a body that decodes into the response type and whose field `K` decodes to the
`float64` `n`: both print as the decimal digits of `n`. The result is the
decoded response. -/
theorem small_integer_expectation_matches {Q R : Type} (env : Env Q R Value)
    (hfmt : env.sprintV = Value.sprint)
    (g : GetCaller Value) (p : PostCaller Value) (req : Q) (optional : List CallOption)
    (bytes : Bytes) (r : R) (M : GoMap Value) (K : String) (n : Int)
    (hn : n.natAbs < 1000000) (hb : n.natAbs ≤ 2 ^ 53)
    (hdec : env.Unmarshal bytes env.zero = (r, none))
    (hmap : env.UnmarshalMap bytes = .ok M)
    (hK : M.get? K = some (.float64 n hb)) :
    (GetReads env g optional bytes → g.baseSuccessResponse.entries = [(K, .int n)] →
      (Get env g optional).err = none ∧ (Get env g optional).res = r) ∧
    (PostReads env p req optional bytes → p.baseSuccessResponse.entries = [(K, .int n)] →
      (Post env p req optional).err = none ∧ (Post env p req optional).res = r) := by
  have hcheck : checkExpected env M [(K, Value.int n)] = none := by
    rw [checkExpected_eq_none_iff]
    intro K' ev' hmem
    have heq : (K', ev') = (K, Value.int n) := by simpa using hmem
    obtain ⟨rfl, rfl⟩ := Prod.mk.inj heq
    refine ⟨.float64 n hb, hK, ?_⟩
    rw [hfmt]
    exact formatFloat64_eq_formatInt n hn
  constructor
  · intro hr hE
    have hlen : 0 < g.baseSuccessResponse.len := by
      unfold GoMap.len
      rw [hE]
      simp
    rw [Get_of_reads env g optional bytes hr,
      decodeAndValidate_checked env _ _ bytes r M hdec hmap hlen, hE]
    exact ⟨hcheck, rfl⟩
  · intro hr hE
    have hlen : 0 < p.baseSuccessResponse.len := by
      unfold GoMap.len
      rw [hE]
      simp
    obtain ⟨reqBody, hP0⟩ := Post_of_reads env p req optional bytes hr
    rw [hP0, decodeAndValidate_checked env _ _ bytes r M hdec hmap hlen, hE]
    exact ⟨hcheck, rfl⟩

/-- Witness of C13 as amended: the expectation `userId = 1` against the body
`{"id":1,"title":"foo","body":"bar","userId":1}` succeeds and the result has
`userId` 1. -/
theorem small_integer_expectation_matches_witness :
    (Get demoEnv (demoGetCaller postBody (some ⟨[("userId", .int 1)], by decide⟩))
        []).err = none ∧
    ((Get demoEnv (demoGetCaller postBody (some ⟨[("userId", .int 1)], by decide⟩))
        []).res : GoMap Value).get? "userId" = some (.float64 1 (by decide)) := by
  have h := (small_integer_expectation_matches demoEnv rfl
    (demoGetCaller postBody (some ⟨[("userId", .int 1)], by decide⟩))
    (demoPostCaller postBody (some ⟨[("userId", .int 1)], by decide⟩)) demoPayload []
    postBody
    ⟨[("id", .float64 1 (by decide)), ("title", .str "foo"), ("body", .str "bar"),
      ("userId", .float64 1 (by decide))], by decide⟩
    ⟨[("id", .float64 1 (by decide)), ("title", .str "foo"), ("body", .str "bar"),
      ("userId", .float64 1 (by decide))], by decide⟩
    "userId" 1 (by decide) (by decide) rfl rfl (by decide)).1 (demo_get_reads _ _) rfl
  refine ⟨h.1, ?_⟩
  rw [h.2]
  decide

/-! ## The memory of a call -/

theorem prefix_set_of_le {α : Type} (l0 l : List α) (x : α) (n : Nat)
    (h : l0 <+: l) (hn : l0.length ≤ n) : l0 <+: l.set n x := by
  induction l0 generalizing l n with
  | nil => exact List.nil_prefix
  | cons a t ih =>
    cases l with
    | nil => simp at h
    | cons b l' =>
      rw [List.cons_prefix_cons] at h
      cases n with
      | zero => simp at hn
      | succ m =>
        rw [List.set_cons_succ, List.cons_prefix_cons]
        exact ⟨h.1, ih l' m h.2 (by simpa using hn)⟩

theorem getD_of_prefix {α : Type} (l0 l : List α) (a : Nat) (d : α) (h : l0 <+: l)
    (ha : a < l0.length) : l.getD a d = l0.getD a d := by
  obtain ⟨t, rfl⟩ := h
  simp [List.getD_eq_getElem?_getD, List.getElem?_append_left ha]

theorem copyRange_frame {V : Type} (l0 : List (GoMap String)) (hp : Heap V)
    (src dst : Nat) (h : l0 <+: hp.strMaps) (hdst : l0.length ≤ dst) :
    l0 <+: (hp.copyRange src dst).strMaps ∧ (hp.copyRange src dst).valMaps = hp.valMaps := by
  have key : ∀ (es : List (String × String)) (hp : Heap V), l0 <+: hp.strMaps →
      l0 <+: (es.foldl (fun hp kv => hp.storeStr dst kv.1 kv.2) hp).strMaps ∧
      (es.foldl (fun hp kv => hp.storeStr dst kv.1 kv.2) hp).valMaps = hp.valMaps := by
    intro es
    induction es with
    | nil => intro hp h; exact ⟨h, rfl⟩
    | cons kv rest ih =>
      intro hp h
      have h1 : l0 <+: (hp.storeStr dst kv.1 kv.2).strMaps :=
        prefix_set_of_le l0 hp.strMaps _ dst h hdst
      exact ih (hp.storeStr dst kv.1 kv.2) h1
  exact key _ hp h

theorem buildMaps_frame {V : Type} (d : Nat) (optional : List CallOptionRef)
    (hp : Heap V) :
    hp.strMaps <+: (buildMaps d optional hp).2.2.strMaps ∧
    (buildMaps d optional hp).2.2.valMaps = hp.valMaps ∧
    (buildMaps d optional hp).1 = hp.strMaps.length := by
  have h0 : hp.strMaps <+: hp.makeStr.2.strMaps := ⟨[GoMap.empty], rfl⟩
  have h1 := copyRange_frame hp.strMaps hp.makeStr.2 d hp.strMaps.length h0 (Nat.le_refl _)
  have h2 : hp.strMaps <+: ((hp.makeStr.2.copyRange d hp.strMaps.length).makeStr).2.strMaps :=
    h1.1.trans ⟨[GoMap.empty], rfl⟩
  have hv : ((hp.makeStr.2.copyRange d hp.strMaps.length).makeStr).2.valMaps = hp.valMaps :=
    h1.2
  cases optional with
  | nil => exact ⟨h2, hv, rfl⟩
  | cons opt rest =>
    cases hH : opt.Header with
    | none =>
      simp only [buildMaps, hH]
      exact ⟨h2, hv, rfl⟩
    | some src =>
      have h3 := copyRange_frame hp.strMaps
        ((hp.makeStr.2.copyRange d hp.strMaps.length).makeStr).2 src hp.strMaps.length h2
        (Nat.le_refl _)
      simp only [buildMaps, hH]
      exact ⟨h3.1, h3.2.trans hv, rfl⟩

theorem decodeAndValidateM_frame {Q R V : Type} (env : Env Q R V) (E : Nat)
    (calls : List Call) (bytes : Bytes) (hp : Heap V) :
    (decodeAndValidateM env E calls bytes hp).2.strMaps = hp.strMaps ∧
    hp.valMaps <+: (decodeAndValidateM env E calls bytes hp).2.valMaps := by
  rcases hU : env.Unmarshal bytes env.zero with ⟨res, _ | e⟩
  · by_cases hlen : (hp.loadVal E).len > 0
    · rcases hm : env.UnmarshalMap bytes with e | M
      · simp only [decodeAndValidateM, hU, hlen, if_true, Heap.makeVal, hm]
        exact ⟨trivial, ⟨[GoMap.empty], rfl⟩⟩
      · simp only [decodeAndValidateM, hU, hlen, if_true, Heap.makeVal, hm,
          Heap.fillVal]
        exact ⟨trivial, prefix_set_of_le hp.valMaps _ _ _ ⟨[GoMap.empty], rfl⟩
          (Nat.le_refl _)⟩
    · simp only [decodeAndValidateM, hU, hlen, if_false]
      exact ⟨trivial, List.prefix_refl _⟩
  · simp only [decodeAndValidateM, hU]
    exact ⟨trivial, List.prefix_refl _⟩

theorem handleResponseM_frame {Q R V : Type} (env : Env Q R V) (E : Nat)
    (calls : List Call) (resp : Response) (hp : Heap V) :
    (handleResponseM env E calls resp hp).2.strMaps = hp.strMaps ∧
    hp.valMaps <+: (handleResponseM env E calls resp hp).2.valMaps := by
  unfold handleResponseM
  split
  · exact ⟨rfl, List.prefix_refl _⟩
  · exact decodeAndValidateM_frame env E _ _ hp

theorem GetM_frame {Q R V : Type} (env : Env Q R V) (g : GetCallerRef)
    (optional : List CallOptionRef) (hp : Heap V) :
    hp.strMaps <+: (GetM env g optional hp : Outcome R × Heap V).2.strMaps ∧
    hp.valMaps <+: (GetM env g optional hp : Outcome R × Heap V).2.valMaps := by
  obtain ⟨hs, hv, _⟩ := buildMaps_frame g.defaultHeaders optional hp
  have hv' : hp.valMaps <+: (buildMaps g.defaultHeaders optional hp).2.2.valMaps := by
    rw [hv]
  unfold GetM
  simp only
  split
  · exact ⟨hs, hv'⟩
  · split
    · exact ⟨hs, hv'⟩
    · rename_i resp _
      have hr := handleResponseM_frame (R := R) env g.baseSuccessResponse
        [.newRequest "GET" (substitute
            ((buildMaps g.defaultHeaders optional hp).2.2.loadStr
              (buildMaps g.defaultHeaders optional hp).2.1).entries
            (g.baseURL ++ "/" ++ g.endpoint)),
          .transport ⟨"GET", substitute
            ((buildMaps g.defaultHeaders optional hp).2.2.loadStr
              (buildMaps g.defaultHeaders optional hp).2.1).entries
            (g.baseURL ++ "/" ++ g.endpoint),
            setHeaders env ((buildMaps g.defaultHeaders optional hp).2.2.loadStr
              (buildMaps g.defaultHeaders optional hp).1) GoMap.empty, none⟩]
        resp (buildMaps g.defaultHeaders optional hp).2.2
      exact ⟨by rw [hr.1]; exact hs, hv'.trans hr.2⟩

theorem PostM_frame {Q R V : Type} (env : Env Q R V) (p : PostCallerRef) (req : Q)
    (optional : List CallOptionRef) (hp : Heap V) :
    hp.strMaps <+: (PostM env p req optional hp : Outcome R × Heap V).2.strMaps ∧
    hp.valMaps <+: (PostM env p req optional hp : Outcome R × Heap V).2.valMaps := by
  obtain ⟨hs, hv, _⟩ := buildMaps_frame p.defaultHeaders optional hp
  have hv' : hp.valMaps <+: (buildMaps p.defaultHeaders optional hp).2.2.valMaps := by
    rw [hv]
  unfold PostM
  simp only
  split
  · exact ⟨List.prefix_refl _, List.prefix_refl _⟩
  · split
    · exact ⟨hs, hv'⟩
    · split
      · exact ⟨hs, hv'⟩
      · refine ⟨?_, hv'.trans (handleResponseM_frame env _ _ _ _).2⟩
        rw [(handleResponseM_frame env _ _ _ _).1]
        exact hs

/-! ### The memory-level calls compute what `Get` and `Post` compute -/

theorem loadStr_storeStr_same {V : Type} (hp : Heap V) (a : Nat) (k v : String)
    (ha : a < hp.strMaps.length) :
    (hp.storeStr a k v).loadStr a = (hp.loadStr a).set k v := by
  simp [Heap.storeStr, Heap.loadStr, List.getD_eq_getElem?_getD, ha]

theorem loadStr_storeStr_other {V : Type} (hp : Heap V) (a b : Nat) (k v : String)
    (hab : a ≠ b) : (hp.storeStr a k v).loadStr b = hp.loadStr b := by
  simp [Heap.storeStr, Heap.loadStr, List.getD_eq_getElem?_getD, List.getElem?_set_ne hab]

theorem foldl_storeStr {V : Type} (dst : Nat) (es : List (String × String)) (hp : Heap V)
    (hdst : dst < hp.strMaps.length) :
    (es.foldl (fun hp kv => hp.storeStr dst kv.1 kv.2) hp).loadStr dst =
        GoMap.copyInto es (hp.loadStr dst) ∧
    (∀ b, b ≠ dst →
      (es.foldl (fun hp kv => hp.storeStr dst kv.1 kv.2) hp).loadStr b = hp.loadStr b) ∧
    (es.foldl (fun hp kv => hp.storeStr dst kv.1 kv.2) hp).strMaps.length =
      hp.strMaps.length := by
  induction es generalizing hp with
  | nil => exact ⟨rfl, fun _ _ => rfl, rfl⟩
  | cons kv rest ih =>
    have hlen : (hp.storeStr dst kv.1 kv.2).strMaps.length = hp.strMaps.length := by
      simp [Heap.storeStr]
    obtain ⟨h1, h2, h3⟩ := ih (hp.storeStr dst kv.1 kv.2) (by rw [hlen]; exact hdst)
    refine ⟨?_, ?_, ?_⟩
    · rw [List.foldl_cons, h1, loadStr_storeStr_same hp dst _ _ hdst]
      rfl
    · intro b hb
      rw [List.foldl_cons, h2 b hb, loadStr_storeStr_other hp dst b _ _ (Ne.symm hb)]
    · rw [List.foldl_cons, h3, hlen]

theorem copyRange_spec {V : Type} (hp : Heap V) (src dst : Nat)
    (hdst : dst < hp.strMaps.length) :
    (hp.copyRange src dst).loadStr dst =
        GoMap.copyInto (hp.loadStr src).entries (hp.loadStr dst) ∧
    (∀ b, b ≠ dst → (hp.copyRange src dst).loadStr b = hp.loadStr b) ∧
    (hp.copyRange src dst).strMaps.length = hp.strMaps.length :=
  foldl_storeStr dst (hp.loadStr src).entries hp hdst

theorem makeStr_spec {V : Type} (hp : Heap V) :
    hp.makeStr.1 = hp.strMaps.length ∧
    hp.makeStr.2.loadStr hp.strMaps.length = GoMap.empty ∧
    (∀ b, b ≠ hp.strMaps.length → hp.makeStr.2.loadStr b = hp.loadStr b) ∧
    hp.makeStr.2.strMaps.length = hp.strMaps.length + 1 := by
  refine ⟨rfl, ?_, ?_, ?_⟩
  · simp [Heap.makeStr, Heap.loadStr, List.getD_eq_getElem?_getD]
  · intro b hb
    rcases Nat.lt_or_gt_of_ne hb with hlt | hgt
    · simp [Heap.makeStr, Heap.loadStr, List.getD_eq_getElem?_getD,
        List.getElem?_append_left hlt]
    · have h1 : hp.strMaps.length ≤ b := Nat.le_of_lt hgt
      have h2 : (hp.strMaps ++ [GoMap.empty]).length ≤ b := by
        simp
        omega
      simp [Heap.makeStr, Heap.loadStr, List.getD_eq_getElem?_getD,
        List.getElem?_eq_none h1, List.getElem?_eq_none h2]
  · simp [Heap.makeStr]

theorem buildMaps_spec {V : Type} (d E : Nat) (optional : List CallOptionRef)
    (hp : Heap V) (hv : ValidRefs hp d E optional) :
    (buildMaps d optional hp).2.2.loadStr (buildMaps d optional hp).1 =
      mergeHeaders (hp.loadStr d) (optional.map (fun opt => opt.deref hp)) ∧
    (buildMaps d optional hp).2.2.loadStr (buildMaps d optional hp).2.1 =
      pathParamsOf (optional.map (fun opt => opt.deref hp)) := by
  obtain ⟨hd, _, hopt⟩ := hv
  have hdn : d ≠ hp.strMaps.length := Nat.ne_of_lt hd
  obtain ⟨_, m2, m3, m4⟩ := makeStr_spec hp
  obtain ⟨c1, c2, c3⟩ := copyRange_spec hp.makeStr.2 d hp.strMaps.length
    (by rw [m4]; exact Nat.lt_succ_self _)
  rw [m3 d hdn, m2] at c1
  obtain ⟨_, n2, n3, n4⟩ := makeStr_spec (hp.makeStr.2.copyRange d hp.strMaps.length)
  rw [c3, m4] at n2 n3 n4
  have hn : hp.strMaps.length ≠ hp.strMaps.length + 1 := Nat.ne_of_lt (Nat.lt_succ_self _)
  -- the memory after the common part
  have old : ∀ b, b < hp.strMaps.length →
      ((hp.makeStr.2.copyRange d hp.strMaps.length).makeStr).2.loadStr b = hp.loadStr b := by
    intro b hb
    have hb1 : b ≠ hp.strMaps.length + 1 := by omega
    have hb2 : b ≠ hp.strMaps.length := by omega
    rw [n3 b hb1, c2 b hb2, m3 b hb2]
  have hhead : ((hp.makeStr.2.copyRange d hp.strMaps.length).makeStr).2.loadStr
      hp.strMaps.length = GoMap.copyInto (hp.loadStr d).entries GoMap.empty := by
    rw [n3 _ hn, c1]
  have hfst : ((hp.makeStr.2.copyRange d hp.strMaps.length).makeStr).1 =
      hp.strMaps.length + 1 := by
    show (hp.makeStr.2.copyRange d hp.strMaps.length).strMaps.length = _
    rw [c3, m4]
  cases optional with
  | nil =>
    simp only [buildMaps, List.map_nil, mergeHeaders, pathParamsOf]
    have hpp : ((hp.makeStr.2.copyRange d hp.strMaps.length).makeStr).2.loadStr
        ((hp.makeStr.2.copyRange d hp.strMaps.length).makeStr).1 = GoMap.empty := by
      rw [hfst]
      exact n2
    exact ⟨hhead, hpp⟩
  | cons opt rest =>
    obtain ⟨hH, hP⟩ := hopt opt (List.mem_cons_self _ _)
    have hpath : ∀ (hp' : Heap V),
        (∀ b, b ≠ hp.strMaps.length → hp'.loadStr b =
          ((hp.makeStr.2.copyRange d hp.strMaps.length).makeStr).2.loadStr b) →
        hp'.loadStr
            (match opt.PathParam with
              | none => ((hp.makeStr.2.copyRange d hp.strMaps.length).makeStr).1
              | some pp => pp) =
          pathParamsOf (List.map (fun opt => opt.deref hp) (opt :: rest)) := by
      intro hp' hsame
      cases hPP : opt.PathParam with
      | none =>
        simp only [List.map_cons, pathParamsOf, CallOptionRef.deref, hPP, Option.map_none']
        rw [hfst, hsame _ (Ne.symm hn)]
        exact n2
      | some pp =>
        have hpp := hP pp hPP
        simp only [List.map_cons, pathParamsOf, CallOptionRef.deref, hPP, Option.map_some']
        rw [hsame pp (Nat.ne_of_lt hpp), old pp hpp]
    cases hHd : opt.Header with
    | none =>
      simp only [buildMaps, hHd]
      refine ⟨?_, hpath _ (fun _ _ => rfl)⟩
      simp only [List.map_cons, mergeHeaders, CallOptionRef.deref, hHd, Option.map_none']
      exact hhead
    | some src =>
      have hsrc := hH src hHd
      obtain ⟨e1, e2, _⟩ := copyRange_spec
        ((hp.makeStr.2.copyRange d hp.strMaps.length).makeStr).2 src hp.strMaps.length
        (by rw [n4]; omega)
      simp only [buildMaps, hHd]
      refine ⟨?_, hpath _ e2⟩
      simp only [List.map_cons, mergeHeaders, CallOptionRef.deref, hHd, Option.map_some']
      have hfin : (((hp.makeStr.2.copyRange d hp.strMaps.length).makeStr).2.copyRange src
          hp.strMaps.length).loadStr hp.strMaps.length =
          GoMap.copyInto (hp.loadStr src).entries
            (GoMap.copyInto (hp.loadStr d).entries GoMap.empty) := by
        rw [e1, old src hsrc, hhead]
      exact hfin

theorem loadVal_of_len_pos {V : Type} (hp : Heap V) (E : Nat)
    (hlen : (hp.loadVal E).len > 0) : E < hp.valMaps.length := by
  by_contra hE
  have hnone : hp.valMaps[E]? = none := List.getElem?_eq_none (Nat.le_of_not_lt hE)
  have hempty : hp.loadVal E = GoMap.empty := by
    simp [Heap.loadVal, List.getD_eq_getElem?_getD, hnone]
  rw [hempty] at hlen
  exact absurd hlen (Nat.lt_irrefl 0)

theorem decodeAndValidateM_fst {Q R V : Type} (env : Env Q R V) (E : Nat)
    (calls : List Call) (bytes : Bytes) (hp : Heap V) :
    (decodeAndValidateM env E calls bytes hp).1 =
      decodeAndValidate env (hp.loadVal E) calls bytes := by
  rcases hU : env.Unmarshal bytes env.zero with ⟨res, _ | e⟩
  · by_cases hlen : (hp.loadVal E).len > 0
    · rcases hm : env.UnmarshalMap bytes with e | M
      · simp only [decodeAndValidateM, decodeAndValidate, hU, hlen, if_true,
          Heap.makeVal, hm]
      · have hE : E < hp.valMaps.length := loadVal_of_len_pos hp E hlen
        have h1 : (Heap.fillVal { hp with valMaps := hp.valMaps ++ [GoMap.empty] }
            hp.valMaps.length M).loadVal hp.valMaps.length = M := by
          simp [Heap.fillVal, Heap.loadVal, List.getD_eq_getElem?_getD]
        have h2 : (Heap.fillVal { hp with valMaps := hp.valMaps ++ [GoMap.empty] }
            hp.valMaps.length M).loadVal E = hp.loadVal E := by
          simp [Heap.fillVal, Heap.loadVal, List.getD_eq_getElem?_getD,
            List.getElem?_set_ne (Nat.ne_of_gt hE), List.getElem?_append_left hE]
        simp only [decodeAndValidateM, decodeAndValidate, hU, hlen, if_true,
          Heap.makeVal, hm, h1, h2]
    · simp only [decodeAndValidateM, decodeAndValidate, hU, hlen, if_false]
  · simp only [decodeAndValidateM, decodeAndValidate, hU]

theorem handleResponseM_fst {Q R V : Type} (env : Env Q R V) (E : Nat)
    (calls : List Call) (resp : Response) (hp : Heap V) :
    (handleResponseM env E calls resp hp).1 =
      handleResponse env (hp.loadVal E) calls resp := by
  unfold handleResponseM handleResponse
  split
  · rfl
  · exact decodeAndValidateM_fst env E _ _ hp

theorem GetM_fst {Q R V : Type} (env : Env Q R V) (g : GetCallerRef)
    (optional : List CallOptionRef) (hp : Heap V)
    (hv : ValidRefs hp g.defaultHeaders g.baseSuccessResponse optional) :
    (GetM env g optional hp : Outcome R × Heap V).1 =
      Get env (g.deref hp) (optional.map (fun opt => opt.deref hp)) := by
  obtain ⟨b1, b2⟩ := buildMaps_spec g.defaultHeaders g.baseSuccessResponse optional hp hv
  obtain ⟨_, bv, _⟩ := buildMaps_frame g.defaultHeaders optional hp
  have hE : (buildMaps g.defaultHeaders optional hp).2.2.loadVal g.baseSuccessResponse =
      hp.loadVal g.baseSuccessResponse := by
    simp only [Heap.loadVal, bv]
  unfold GetM Get getRequest resolveURL
  simp only [b1, b2, GetCallerRef.deref]
  split
  · rfl
  · split
    · rfl
    · rw [handleResponseM_fst, hE]

theorem PostM_fst {Q R V : Type} (env : Env Q R V) (p : PostCallerRef) (req : Q)
    (optional : List CallOptionRef) (hp : Heap V)
    (hv : ValidRefs hp p.defaultHeaders p.baseSuccessResponse optional) :
    (PostM env p req optional hp : Outcome R × Heap V).1 =
      Post env (p.deref hp) req (optional.map (fun opt => opt.deref hp)) := by
  obtain ⟨b1, b2⟩ := buildMaps_spec p.defaultHeaders p.baseSuccessResponse optional hp hv
  obtain ⟨_, bv, _⟩ := buildMaps_frame p.defaultHeaders optional hp
  have hE : (buildMaps p.defaultHeaders optional hp).2.2.loadVal p.baseSuccessResponse =
      hp.loadVal p.baseSuccessResponse := by
    simp only [Heap.loadVal, bv]
  unfold PostM Post postRequest resolveURL
  simp only [b1, b2, PostCallerRef.deref]
  split
  · rfl
  · split
    · rfl
    · split
      · rfl
      · rw [handleResponseM_fst, hE]

/-! ### C11 -/

/-- C11: a call does not mutate its inputs. Every map object that exists
before `Get` or `Post` is called (in particular the caller's `defaultHeaders`
and `baseSuccessResponse` and the option's `Header` and `PathParam`) holds
exactly the same entries when the call returns, whatever it returns; the
merge is written into a map object allocated by the call, which the default
headers are copied into. -/
theorem call_leaves_maps_unchanged {Q R V : Type} (env : Env Q R V) (g : GetCallerRef)
    (p : PostCallerRef) (req : Q) (optional : List CallOptionRef) (hp : Heap V) :
    (∀ a, a < hp.strMaps.length →
      (GetM env g optional hp : Outcome R × Heap V).2.loadStr a = hp.loadStr a) ∧
    (∀ a, a < hp.valMaps.length →
      (GetM env g optional hp : Outcome R × Heap V).2.loadVal a = hp.loadVal a) ∧
    (∀ a, a < hp.strMaps.length →
      (PostM env p req optional hp : Outcome R × Heap V).2.loadStr a = hp.loadStr a) ∧
    (∀ a, a < hp.valMaps.length →
      (PostM env p req optional hp : Outcome R × Heap V).2.loadVal a = hp.loadVal a) ∧
    (buildMaps g.defaultHeaders optional hp).1 = hp.strMaps.length ∧
    (ValidRefs hp g.defaultHeaders g.baseSuccessResponse optional →
      (buildMaps g.defaultHeaders optional hp).2.2.loadStr
          (buildMaps g.defaultHeaders optional hp).1 =
        mergeHeaders (hp.loadStr g.defaultHeaders)
          (optional.map (fun opt => opt.deref hp))) := by
  obtain ⟨gs, gv⟩ := GetM_frame (R := R) env g optional hp
  obtain ⟨ps, pv⟩ := PostM_frame (R := R) env p req optional hp
  refine ⟨?_, ?_, ?_, ?_, (buildMaps_frame g.defaultHeaders optional hp).2.2, ?_⟩
  · intro a ha
    exact getD_of_prefix _ _ a _ gs ha
  · intro a ha
    exact getD_of_prefix _ _ a _ gv ha
  · intro a ha
    exact getD_of_prefix _ _ a _ ps ha
  · intro a ha
    exact getD_of_prefix _ _ a _ pv ha
  · intro hv
    exact (buildMaps_spec g.defaultHeaders g.baseSuccessResponse optional hp hv).1

/-- Witness of C11: after `Get` and after `Post` on the memory of the examples
the default headers (address 0), the override (1), the path parameters (2) and
the expectations (value address 0) are as before; the merged headers are in
the new map at address 3. -/
theorem call_leaves_maps_unchanged_witness :
    (GetM demoEnv (demoGetCallerRef successBody) [demoOptionRef] demoHeap).2.loadStr 0 =
      authHeaders ∧
    (GetM demoEnv (demoGetCallerRef successBody) [demoOptionRef] demoHeap).2.loadStr 1 =
      demoHeap.loadStr 1 ∧
    (GetM demoEnv (demoGetCallerRef successBody) [demoOptionRef] demoHeap).2.loadStr 2 =
      demoHeap.loadStr 2 ∧
    (GetM demoEnv (demoGetCallerRef successBody) [demoOptionRef] demoHeap).2.loadVal 0 =
      expectStatus ∧
    (PostM demoEnv (demoPostCallerRef successBody) demoPayload [demoOptionRef]
      demoHeap).2.loadStr 0 = authHeaders ∧
    (PostM demoEnv (demoPostCallerRef successBody) demoPayload [demoOptionRef]
      demoHeap).2.loadVal 0 = expectStatus ∧
    (buildMaps 0 [demoOptionRef] demoHeap).2.2.loadStr 3 =
      mergeHeaders authHeaders
        [⟨some ⟨[("Custom-Header", "custom_value")], by decide⟩,
          some ⟨[("id", "123")], by decide⟩⟩] := by
  have h := call_leaves_maps_unchanged demoEnv (demoGetCallerRef successBody)
    (demoPostCallerRef successBody) demoPayload [demoOptionRef] demoHeap
  have hv : ValidRefs demoHeap 0 0 [demoOptionRef] := by
    refine ⟨by decide, by decide, ?_⟩
    intro opt hopt
    have ho : opt = demoOptionRef := by simpa using hopt
    subst ho
    constructor
    · intro a ha
      cases ha
      decide
    · intro a ha
      cases ha
      decide
  exact ⟨h.1 0 (by decide), h.1 1 (by decide), h.1 2 (by decide), h.2.1 0 (by decide),
    h.2.2.1 0 (by decide), h.2.2.2.1 0 (by decide), h.2.2.2.2.2 hv⟩

end HttpCaller
